import Mathlib

/-!
# NetworkGlobalFunctions: wire codec, dispatcher, typed handlers, client proxy

A shallow embedding of `server.hpp`, `serverDispatcher.hpp` and
`serverConnection.hpp`.

Modelling conventions
* A `char` is a byte, `Fin 256`.
* A `const char* buffer` carries no length, so it is a total map from byte
  index to byte (`Buffer`): the bytes of the message sit at the front and
  whatever the memory held before sits behind them (`Buffer.store`).
* A `std::vector<char>` is a `List Byte`.
* A trivially copyable scalar type is given by its `sizeof` and its signedness;
  its values are the integers of its range, its object representation is the
  two's complement number in native (little-endian) byte order. `size_t` is the
  8-byte unsigned type, as the spec's wire format fixes.
* `size_t` arithmetic on the cursor wraps at `2^64`.
* A call that can throw returns an `Except Exception _`; the cursor is passed
  by reference in the source, so the model returns its final value next to the
  result, also when the call throws.
* Whether the constructor `std::vector<T> vec(size)` throws is decided by the
  standard library and the memory at hand, not by this repository: the decoders
  of the server take it as a parameter (`Allocator`).
* A `read(2)` is given by what it finds on the socket (`Pending`); it copies at
  most the capacity it is called with. A connection is the list of what its
  successive reads find.
-/

namespace NetworkGlobalFunctions

/-! ## Bytes and buffers -/

/-- One `char` of memory. -/
abbrev Byte := Fin 256

/-- What a `const char*` points at: the byte found at every index. -/
abbrev Buffer := Nat → Byte

/-- Memory `mem` after `bytes` were copied to its front (what `read(2)` does to
the receive array): the first `bytes.length` bytes are those of `bytes`, the
rest is what `mem` held. -/
def Buffer.store (mem : Buffer) (bytes : List Byte) : Buffer :=
  fun i => bytes.getD i (mem i)

/-- The `n` bytes of `buffer` starting at `offset`: the source range of
`memcpy(&value, buffer + offset, n)`. -/
def Buffer.bytesAt (buffer : Buffer) (offset n : Nat) : List Byte :=
  (List.range n).map (fun i => buffer (offset + i))

/-- A memory of zero bytes. -/
def Buffer.zero : Buffer := fun _ => 0

/-- A memory of `0xFF` bytes. -/
def Buffer.ones : Buffer := fun _ => 255

/-- The modulus of `size_t` arithmetic. -/
def SIZE_MAX_SUCC : Nat := 2 ^ 64

/-! ## Scalar types and their object representation -/

/-- A fixed-layout scalar type: `size` is `sizeof(T)`. -/
structure ScalarTy where
  size : Nat
  signed : Bool
  size_pos : 0 < size

/-- `int` / `int32_t`. -/
def int32_t : ScalarTy := ⟨4, true, by decide⟩
/-- `uint32_t`, the type of a function id. -/
def uint32_t : ScalarTy := ⟨4, false, by decide⟩
/-- `size_t` on the LP64 targets the spec's 8-byte count describes. -/
def size_t : ScalarTy := ⟨8, false, by decide⟩
/-- `unsigned char` / `uint8_t`. -/
def uint8_t : ScalarTy := ⟨1, false, by decide⟩

/-- Number of object representations of `T`: `2^(8 * sizeof(T))`. -/
def ScalarTy.card (T : ScalarTy) : Nat := 256 ^ T.size

/-- The integer `v` is a value of `T`. -/
def ScalarTy.InRange (T : ScalarTy) (v : Int) : Prop :=
  if T.signed then -(T.card : Int) ≤ 2 * v ∧ 2 * v < T.card
  else 0 ≤ v ∧ v < T.card

instance (T : ScalarTy) (v : Int) : Decidable (T.InRange v) := by
  unfold ScalarTy.InRange; infer_instance

/-- The object representation of `v` read as an unsigned number (two's
complement). -/
def ScalarTy.toRaw (T : ScalarTy) (v : Int) : Nat :=
  (v % (T.card : Int)).toNat

/-- The value of `T` whose object representation is the unsigned number `r`. -/
def ScalarTy.ofRaw (T : ScalarTy) (r : Nat) : Int :=
  if T.signed ∧ T.card ≤ 2 * r then (r : Int) - T.card else r

/-- The `n` low bytes of `r`, least significant first. -/
def bytesLE : Nat → Nat → List Byte
  | 0, _ => []
  | n + 1, r => Fin.ofNat (r % 256) :: bytesLE n (r / 256)

/-- The number whose little-endian bytes are `bs`. -/
def natLE : List Byte → Nat
  | [] => 0
  | b :: bs => b.val + 256 * natLE bs

/-- The `sizeof(T)` raw bytes of `v`: what `reinterpret_cast<const char*>(&value)`
ranges over. -/
def ScalarTy.encode (T : ScalarTy) (v : Int) : List Byte :=
  bytesLE T.size (T.toRaw v)

/-- The value of `T` that `memcpy` builds from `sizeof(T)` raw bytes. -/
def ScalarTy.decode (T : ScalarTy) (bs : List Byte) : Int :=
  T.ofRaw (natLE bs)

/-! ## Exceptions and the vector constructor -/

/-- What a call can throw: `std::runtime_error(what)`, `std::length_error(what)`,
`std::bad_alloc`, or some other `std::exception`. -/
inductive Exception where
  | runtime_error (what : String)
  | length_error (what : String)
  | bad_alloc
  | exception (what : String)
  deriving DecidableEq, Repr

/-- What the constructor `std::vector<T> vec(size)` does for an element type
and a size: `none` when it builds the vector, `some e` when it throws `e`. -/
abbrev Allocator := ScalarTy → Nat → Option Exception

/-- The constructor of libstdc++ on an LP64 target that can give `heap` bytes:
`std::length_error` above `max_size() = PTRDIFF_MAX / sizeof(T)`,
`std::bad_alloc` when the elements take more than `heap` bytes. -/
def libstdcxx_vector (heap : Nat) : Allocator :=
  fun T size =>
    if (2 ^ 63 - 1) / T.size < size then
      some (.length_error "cannot create std::vector larger than max_size()")
    else if heap < size * T.size then some .bad_alloc
    else none

/-! ## Buffer utilities (`server.hpp`) -/

/-- `read_from_buffer<T>(buffer, offset)`: copies `sizeof(T)` bytes from
`buffer + offset` into a `T`, adds `sizeof(T)` to `offset`; returns the value
and the new offset. There is no bound to check against. -/
def read_from_buffer (T : ScalarTy) (buffer : Buffer) (offset : Nat) : Int × Nat :=
  (T.decode (buffer.bytesAt offset T.size), (offset + T.size) % SIZE_MAX_SUCC)

/-- The loop `for (i = 0; i < size; ++i) vec[i] = read_from_buffer<T>(buffer, offset)`. -/
def read_elements (T : ScalarTy) (buffer : Buffer) : Nat → Nat → List Int × Nat
  | 0, offset => ([], offset)
  | n + 1, offset =>
    let (v, offset1) := read_from_buffer T buffer offset
    let (vs, offset2) := read_elements T buffer n offset1
    (v :: vs, offset2)

/-- `read_vector_from_buffer<T>(buffer, offset)`: reads a `size_t` count,
constructs `std::vector<T> vec(size)` and fills it by the loop. When the
constructor throws, the exception leaves the function with `offset` behind the
count; nothing compares the count with the buffer or with a maximum. -/
def read_vector_from_buffer (alloc : Allocator) (T : ScalarTy) (buffer : Buffer)
    (offset : Nat) : Except Exception (List Int) × Nat :=
  match alloc T (read_from_buffer size_t buffer offset).1.toNat with
  | some e => (.error e, (read_from_buffer size_t buffer offset).2)
  | none =>
    (.ok (read_elements T buffer (read_from_buffer size_t buffer offset).1.toNat
        (read_from_buffer size_t buffer offset).2).1,
      (read_elements T buffer (read_from_buffer size_t buffer offset).1.toNat
        (read_from_buffer size_t buffer offset).2).2)

/-- `write_to_buffer(buffer, value)`: appends the `sizeof(T)` raw bytes of `value`. -/
def write_to_buffer (T : ScalarTy) (buffer : List Byte) (value : Int) : List Byte :=
  buffer ++ T.encode value

/-- `write_vector_to_buffer(buffer, vec)`: appends `vec.size()` as a `size_t`,
then every element in order. -/
def write_vector_to_buffer (T : ScalarTy) (buffer : List Byte) (vec : List Int) :
    List Byte :=
  vec.foldl (fun b val => write_to_buffer T b val)
    (write_to_buffer size_t buffer (vec.length : Int))

/-! ## Dispatcher (`serverDispatcher.hpp`) -/

/-- What a call that may throw leaves behind: the returned bytes or the
exception, and the final value of the `size_t& offset` it was given. -/
abbrev Outcome := Except Exception (List Byte) × Nat

deriving instance DecidableEq for Except

/-- `Dispatcher::Handler`:
`std::function<std::vector<char>(const char* buffer, size_t& offset)>`. -/
abbrev Handler := Buffer → Nat → Outcome

/-- `Dispatcher`: its only member is `std::unordered_map<uint32_t, Handler> handlers`. -/
structure Dispatcher where
  handlers : Nat → Option Handler

/-- A dispatcher with no handler registered. -/
def Dispatcher.empty : Dispatcher := ⟨fun _ => none⟩

/-- `Dispatcher::register_handler`: `handlers[func_id] = std::move(handler)`. -/
def Dispatcher.register_handler (d : Dispatcher) (func_id : Nat) (handler : Handler) :
    Dispatcher :=
  ⟨fun k => if k = func_id then some handler else d.handlers k⟩

/-- `Dispatcher::dispatch`: calls the handler found under `func_id`, throws
`std::runtime_error("Unknown function ID: " + std::to_string(func_id))` when
there is none. -/
def Dispatcher.dispatch (d : Dispatcher) (func_id : Nat) (buffer : Buffer) (offset : Nat) :
    Outcome :=
  match d.handlers func_id with
  | some handler => handler buffer offset
  | none => (.error (.runtime_error ("Unknown function ID: " ++ toString func_id)), offset)

/-- The exception `dispatch` throws for an id without a handler. -/
def unknown_function (func_id : Nat) : Exception :=
  .runtime_error ("Unknown function ID: " ++ toString func_id)

/-- A handler a caller may pass to `register_handler`: it reads nothing and
throws `std::runtime_error(what)`. -/
def throwing_handler (what : String) : Handler :=
  fun _ offset => (.error (.runtime_error what), offset)

/-- A handler that reads nothing and returns the given bytes. -/
def constant_handler (bytes : List Byte) : Handler :=
  fun _ offset => (.ok bytes, offset)

/-! ## Typed handlers (`server.hpp`) -/

/-- The supported parameter and return types: a scalar `T` or a
`std::vector<T>` (`is_vector`). -/
inductive ArgTy where
  | scalar (T : ScalarTy)
  | vector (T : ScalarTy)

/-- The values of a parameter type. -/
@[reducible] def ArgTy.Val : ArgTy → Type
  | .scalar _ => Int
  | .vector _ => List Int

/-- `std::tuple<Decayed<Args>...>`. -/
@[reducible] def Args : List ArgTy → Type
  | [] => Unit
  | t :: ts => t.Val × Args ts

/-- Every value of the parameter lies in the range of its scalar type. -/
def ArgTy.InRange : (t : ArgTy) → t.Val → Prop
  | .scalar T, v => T.InRange v
  | .vector T, vs => ∀ v ∈ vs, T.InRange v

/-- Every argument of the tuple lies in the range of its type. -/
def Args.InRange : (sig : List ArgTy) → Args sig → Prop
  | [], _ => True
  | t :: ts, (v, vs) => t.InRange v ∧ Args.InRange ts vs

/-- The vector among the values of a parameter, if it is one, can be
constructed. -/
def ArgTy.Constructible (alloc : Allocator) : (t : ArgTy) → t.Val → Prop
  | .scalar _, _ => True
  | .vector T, vs => alloc T (List.length (α := Int) vs) = none

/-- Every vector of the tuple can be constructed. -/
def Args.Constructible (alloc : Allocator) : (sig : List ArgTy) → Args sig → Prop
  | [], _ => True
  | t :: ts, (v, vs) => t.Constructible alloc v ∧ Args.Constructible alloc ts vs

/-- `Server::read_single_arg<T>`: `read_from_buffer<T>` when `T` is no vector,
`read_vector_from_buffer<Elem>` when it is `std::vector<Elem>`. -/
def read_single_arg (alloc : Allocator) :
    (t : ArgTy) → Buffer → Nat → Except Exception t.Val × Nat
  | .scalar T, buf, offset =>
    (.ok (read_from_buffer T buf offset).1, (read_from_buffer T buf offset).2)
  | .vector T, buf, offset => read_vector_from_buffer alloc T buf offset

/-- The order in which a compiler evaluates the arguments of one function
call. C++ leaves it unspecified; clang evaluates them left to right, GCC right
to left. -/
inductive ArgEvalOrder where
  | leftToRight
  | rightToLeft
  deriving DecidableEq, Repr

/-- `Server::read_args_from_buffer_impl`:
`std::make_tuple(read_single_arg<Decayed<Args>>(buf, offset)...)`. The reads
are the arguments of one call of `std::make_tuple`, all on the same `offset`,
so they happen in the compiler's argument evaluation order; the tuple holds
each result at its declared position. A read that throws ends the evaluation:
the reads after it do not happen and `offset` stays where the throwing read
left it. -/
def read_args_from_buffer_impl (alloc : Allocator) (order : ArgEvalOrder) :
    (sig : List ArgTy) → Buffer → Nat → Except Exception (Args sig) × Nat
  | [], _, offset => (.ok (), offset)
  | t :: ts, buf, offset =>
    match order with
    | .leftToRight =>
      match read_single_arg alloc t buf offset with
      | (.error e, offset1) => (.error e, offset1)
      | (.ok v, offset1) =>
        match read_args_from_buffer_impl alloc order ts buf offset1 with
        | (.error e, offset2) => (.error e, offset2)
        | (.ok vs, offset2) => (.ok (v, vs), offset2)
    | .rightToLeft =>
      match read_args_from_buffer_impl alloc order ts buf offset with
      | (.error e, offset1) => (.error e, offset1)
      | (.ok vs, offset1) =>
        match read_single_arg alloc t buf offset1 with
        | (.error e, offset2) => (.error e, offset2)
        | (.ok v, offset2) => (.ok (v, vs), offset2)

/-- `Server::read_args_from_buffer<Args...>`. -/
def read_args_from_buffer (alloc : Allocator) (order : ArgEvalOrder) (sig : List ArgTy)
    (buf : Buffer) (offset : Nat) : Except Exception (Args sig) × Nat :=
  read_args_from_buffer_impl alloc order sig buf offset

/-- `Server::call_with_tuple(func, args)`: `func` applied to the elements of the
tuple in order. -/
def call_with_tuple {sig : List ArgTy} {ret : ArgTy} (func : Args sig → ret.Val)
    (args : Args sig) : ret.Val :=
  func args

/-- `Server::serialize_result`: a fresh `std::vector<char>` filled by
`write_to_buffer` (scalar overload) or `write_vector_to_buffer` (vector
overload). -/
def serialize_result : (ret : ArgTy) → ret.Val → List Byte
  | .scalar T, value => write_to_buffer T [] value
  | .vector T, vec => write_vector_to_buffer T [] vec

/-- `Server`: of its members only `dispatcher` matters to dispatching. -/
structure Server where
  dispatcher : Dispatcher

/-- `Server::register_handler`. -/
def Server.register_handler (s : Server) (func_id : Nat) (handler : Handler) : Server :=
  ⟨s.dispatcher.register_handler func_id handler⟩

/-- The lambda `register_typed_handler` registers: read the arguments, call
`func`, serialise the result. It has no `throw` of its own and catches nothing:
what a vector constructor throws while the arguments are read leaves the
handler. `func` is modelled as a function that returns. -/
def typed_handler (alloc : Allocator) (order : ArgEvalOrder) (sig : List ArgTy) (ret : ArgTy)
    (func : Args sig → ret.Val) : Handler :=
  fun buf offset =>
    match read_args_from_buffer alloc order sig buf offset with
    | (.error e, offset1) => (.error e, offset1)
    | (.ok args, offset1) => (.ok (serialize_result ret (call_with_tuple func args)), offset1)

/-- `Server::register_typed_handler(func_id, func)` for `Ret(*func)(Args...)`. -/
def Server.register_typed_handler (alloc : Allocator) (order : ArgEvalOrder) (s : Server)
    (func_id : Nat) (sig : List ArgTy) (ret : ArgTy) (func : Args sig → ret.Val) : Server :=
  s.register_handler func_id (typed_handler alloc order sig ret func)

/-- A server with no handler registered. -/
def Server.empty : Server := ⟨Dispatcher.empty⟩

/-! ## The functions the spec registers in its examples -/

/-- `int add(int a, int b) { return a + b; }` -/
def add : Args [.scalar int32_t, .scalar int32_t] → Int :=
  fun args => args.1 + args.2.1

/-- `int sub(int a, int b) { return a - b; }` -/
def sub : Args [.scalar int32_t, .scalar int32_t] → Int :=
  fun args => args.1 - args.2.1

/-- `int sum(std::vector<int> xs)`: the running sum `s += x` from `0`. -/
def sum : Args [.vector int32_t] → Int :=
  fun args => args.1.foldl (fun s x => s + x) 0

/-- `int scaled_sum(int k, std::vector<int> xs)`, a mixed signature: `k` times
the sum of `xs`. -/
def scaled_sum : Args [.scalar int32_t, .vector int32_t] → Int :=
  fun args => args.1 * args.2.1.foldl (fun s x => s + x) 0

/-! ## Client proxy (`serverConnection.hpp`), request half -/

/-- Capacity of the request array `char buffer[2048]` of `ServerConnection::send`. -/
def ServerConnection.BUFFER_SIZE : Nat := 2048

/-- `std::memcpy(buffer + offset, raw, raw.length)` into an array: defined only
when the copied range lies inside the array (`none` is undefined behaviour). -/
def memcpy_into (buffer : List Byte) (offset : Nat) (raw : List Byte) :
    Option (List Byte) :=
  if offset + raw.length ≤ buffer.length then
    some (buffer.take offset ++ raw ++ buffer.drop (offset + raw.length))
  else none

/-- `ServerConnection::append_to_buffer` for a trivially copyable `T`: copies the
raw bytes of `value` to `buffer + offset`, adds `sizeof(T)` to `offset`. -/
def ServerConnection.append_to_buffer (T : ScalarTy) (buffer : List Byte) (offset : Nat)
    (value : Int) : Option (List Byte × Nat) :=
  (memcpy_into buffer offset (T.encode value)).map
    (fun b => (b, (offset + T.size) % SIZE_MAX_SUCC))

/-- The loop `for (elem : vec) append_to_buffer(buffer, offset, elem)`. -/
def ServerConnection.append_elements (T : ScalarTy) :
    List Int → List Byte → Nat → Option (List Byte × Nat)
  | [], buffer, offset => some (buffer, offset)
  | elem :: rest, buffer, offset =>
    match ServerConnection.append_to_buffer T buffer offset elem with
    | some (buffer1, offset1) => ServerConnection.append_elements T rest buffer1 offset1
    | none => none

/-- `ServerConnection::append_to_buffer` for a `std::vector<T>`: the size as a
`size_t` first, then the elements. -/
def ServerConnection.append_vector_to_buffer (T : ScalarTy) (buffer : List Byte)
    (offset : Nat) (vec : List Int) : Option (List Byte × Nat) :=
  match ServerConnection.append_to_buffer size_t buffer offset (vec.length : Int) with
  | some (buffer1, offset1) => ServerConnection.append_elements T vec buffer1 offset1
  | none => none

/-- Overload resolution of `append_to_buffer(buffer, offset, arg)` on the type
of `arg`. -/
def ServerConnection.append_arg : (t : ArgTy) → List Byte → Nat → t.Val →
    Option (List Byte × Nat)
  | .scalar T, buffer, offset, value => ServerConnection.append_to_buffer T buffer offset value
  | .vector T, buffer, offset, vec =>
    ServerConnection.append_vector_to_buffer T buffer offset vec

/-- The fold `(append_to_buffer(buffer, offset, args), ...)`: a fold over the
comma operator, so the arguments are appended strictly left to right. -/
def ServerConnection.append_args : (sig : List ArgTy) → List Byte → Nat → Args sig →
    Option (List Byte × Nat)
  | [], buffer, offset, _ => some (buffer, offset)
  | t :: ts, buffer, offset, (v, vs) =>
    match ServerConnection.append_arg t buffer offset v with
    | some (buffer1, offset1) => ServerConnection.append_args ts buffer1 offset1 vs
    | none => none

/-- The request half of `ServerConnection::send`: the zeroed array, the id, the
arguments, then `::send(sock, buffer, offset, 0)`; the result is the bytes
handed to the socket. -/
def ServerConnection.send_request (func_id : Nat) (sig : List ArgTy) (args : Args sig) :
    Option (List Byte) :=
  match ServerConnection.append_to_buffer uint32_t
      (List.replicate ServerConnection.BUFFER_SIZE 0) 0 (func_id : Int) with
  | some (buffer1, offset1) =>
    match ServerConnection.append_args sig buffer1 offset1 args with
    | some (buffer2, offset2) => some (buffer2.take offset2)
    | none => none
  | none => none

/-! ## The request as the spec words it (section 6, wire format) -/

/-- The server-side encoder of one argument: `write_to_buffer` for a scalar,
`write_vector_to_buffer` for a sequence. -/
def encode_arg : (t : ArgTy) → List Byte → t.Val → List Byte
  | .scalar T, buffer, value => write_to_buffer T buffer value
  | .vector T, buffer, vec => write_vector_to_buffer T buffer vec

/-- The server-side encoders applied to every argument in order. -/
def encode_args : (sig : List ArgTy) → List Byte → Args sig → List Byte
  | [], buffer, _ => buffer
  | t :: ts, buffer, (v, vs) => encode_args ts (encode_arg t buffer v) vs

/-- The request of the wire format: the 4-byte id, then each argument. -/
def request_encoding (func_id : Nat) (sig : List ArgTy) (args : Args sig) : List Byte :=
  encode_args sig (write_to_buffer uint32_t [] (func_id : Int)) args

/-! ## Transport reads -/

/-- What one `read(2)` call finds on the socket: `none` when the call fails
(it returns `-1`), otherwise the bytes waiting there (no bytes: the peer has
closed and the call returns `0`). -/
abbrev Pending := Option (List Byte)

/-- `read(fd, buf, capacity)`: the count it returns and the bytes it copies to
the front of `buf`, at most `capacity` of them. -/
def transport_read (pending : Pending) (capacity : Nat) : Int × List Byte :=
  match pending with
  | none => (-1, [])
  | some bytes => (((bytes.take capacity).length : Nat), bytes.take capacity)

/-! ## Client proxy (`serverConnection.hpp`), reply half -/

/-- `ServerConnection::read_from_buffer<T>`, the member copy of the free
function of `server.hpp`. -/
def ServerConnection.read_from_buffer (T : ScalarTy) (buffer : Buffer) (offset : Nat) :
    Int × Nat :=
  (T.decode (buffer.bytesAt offset T.size), (offset + T.size) % SIZE_MAX_SUCC)

/-- The loop `for (i = 0; i < vec_size; ++i) result[i] = read_from_buffer<ElemType>(recv_buf, read_offset)`
of `send`. -/
def ServerConnection.read_result_elements (T : ScalarTy) (recv_buf : Buffer) :
    Nat → Nat → List Int
  | 0, _ => []
  | n + 1, read_offset =>
    let (v, read_offset1) := ServerConnection.read_from_buffer T recv_buf read_offset
    v :: ServerConnection.read_result_elements T recv_buf n read_offset1

/-- The reply half of `ServerConnection::send<Ret>`. For a vector `Ret`: one
read into the zeroed `char recv_buf[2048]`, `return {}` when it delivered
nothing, otherwise the count and the elements. For any other `Ret`: `Ret result{}`,
one read of at most `sizeof(result)` bytes over the front of `result`, whose
count is not looked at, `return result`. -/
def ServerConnection.receive : (ret : ArgTy) → Pending → ret.Val
  | .vector T, pending =>
    let (msgLen, data) := transport_read pending ServerConnection.BUFFER_SIZE
    if msgLen ≤ 0 then []
    else
      let recv_buf := Buffer.zero.store data
      let (vec_size, read_offset) := ServerConnection.read_from_buffer size_t recv_buf 0
      ServerConnection.read_result_elements T recv_buf vec_size.toNat read_offset
  | .scalar T, pending =>
    let (_, data) := transport_read pending T.size
    T.decode (data ++ List.replicate (T.size - data.length) 0)

/-- `ServerConnection::send<Ret>(func_id, args...)`: the request handed to the
socket and the value returned to the caller, given what the one read of the
reply finds. `none` when writing the request overruns the request array. -/
def ServerConnection.send (func_id : Nat) (sig : List ArgTy) (args : Args sig) (ret : ArgTy)
    (pending : Pending) : Option (List Byte × ret.Val) :=
  match ServerConnection.send_request func_id sig args with
  | some request => some (request, ServerConnection.receive ret pending)
  | none => none

/-! ## The connection loop (`Server::handle_client`) -/

/-- Capacity of the receive array `char buffer[1024]` of `handle_client`. -/
def Server.RECEIVE_SIZE : Nat := 1024

/-- One pass of the loop body after a read that delivered something, on the
receive array as that read left it: `offset = 0`, the id, `dispatch`; the
result is the response handed to `send`, or `none` when `dispatch` threw and
the `catch` only logged. -/
def Server.handle_request (s : Server) (buffer : Buffer) : Option (List Byte) :=
  let (func_id, offset) := read_from_buffer uint32_t buffer 0
  match s.dispatcher.dispatch func_id.toNat buffer offset with
  | (.ok response, _) => some response
  | (.error _, _) => none

/-- What the `try` block of `handle_client` sends for an outcome of `dispatch`:
the response, or nothing when it threw. -/
def sent_reply (outcome : Outcome) : Option (List Byte) :=
  match outcome with
  | (.ok response, _) => some response
  | (.error _, _) => none

/-- `Server::handle_client`: the receive array is declared once, before the
loop, and every read copies over its front. The loop ends at the first read
that delivers nothing (or when the listed reads are used up); the result lists,
per request, what was sent back. `buffer` is what the array holds when the loop
is entered. -/
def Server.handle_client (s : Server) : Buffer → List Pending → List (Option (List Byte))
  | _, [] => []
  | buffer, pending :: rest =>
    if (transport_read pending Server.RECEIVE_SIZE).1 ≤ 0 then []
    else
      s.handle_request (buffer.store (transport_read pending Server.RECEIVE_SIZE).2)
        :: s.handle_client (buffer.store (transport_read pending Server.RECEIVE_SIZE).2) rest

/-- The read gives the loop of `handle_client` something to process:
`bytes_read > 0`. -/
def delivers_bytes (pending : Pending) : Prop :=
  0 < (transport_read pending Server.RECEIVE_SIZE).1

instance (pending : Pending) : Decidable (delivers_bytes pending) := by
  unfold delivers_bytes; infer_instance

/-- What the receive array of `handle_client` holds after the listed reads, all
of which delivered bytes: each read copied over the front of what the earlier
ones left. -/
def Server.receive_array_after : Buffer → List Pending → Buffer
  | buffer, [] => buffer
  | buffer, pending :: rest =>
    Server.receive_array_after
      (buffer.store (transport_read pending Server.RECEIVE_SIZE).2) rest

/-! ## Sizes on the wire -/

/-- Bytes one decoded parameter took on the wire: `sizeof(T)` for a scalar, the
8-byte count and the elements for a sequence. -/
def ArgTy.encoded_size : (t : ArgTy) → t.Val → Nat
  | .scalar T, _ => T.size
  | .vector T, vec => 8 + List.length (α := Int) vec * T.size

/-- Sum of the encoded sizes of the parameters of a tuple. -/
def Args.encoded_size : (sig : List ArgTy) → Args sig → Nat
  | [], _ => 0
  | t :: ts, (v, vs) => t.encoded_size v + Args.encoded_size ts vs

/-- Bytes one read of a parameter moves the cursor: `sizeof(T)` for a scalar;
for a sequence the 8-byte count and the elements, or the count alone when the
vector constructor throws. -/
def ArgTy.consumed (alloc : Allocator) : ArgTy → Buffer → Nat → Nat
  | .scalar T, _, _ => T.size
  | .vector T, buf, c =>
    match alloc T (read_from_buffer size_t buf c).1.toNat with
    | none => 8 + (read_from_buffer size_t buf c).1.toNat * T.size
    | some _ => 8

/-- Bytes the reads of a parameter tuple move the cursor, in the order they are
evaluated and up to the read that throws, if one does. -/
def Args.consumed (alloc : Allocator) (order : ArgEvalOrder) :
    List ArgTy → Buffer → Nat → Nat
  | [], _, _ => 0
  | t :: ts, buf, c =>
    match order with
    | .leftToRight =>
      match (read_single_arg alloc t buf c).1 with
      | .error _ => t.consumed alloc buf c
      | .ok _ =>
        t.consumed alloc buf c
          + Args.consumed alloc order ts buf (read_single_arg alloc t buf c).2
    | .rightToLeft =>
      match (read_args_from_buffer_impl alloc order ts buf c).1 with
      | .error _ => Args.consumed alloc order ts buf c
      | .ok _ =>
        Args.consumed alloc order ts buf c
          + t.consumed alloc buf (read_args_from_buffer_impl alloc order ts buf c).2

/-- No parameter of the signature is a sequence. -/
def all_scalar : List ArgTy → Prop
  | [] => True
  | .scalar _ :: ts => all_scalar ts
  | .vector _ :: _ => False

/-! ## Codec lemmas -/

theorem bytesLE_length (n r : Nat) : (bytesLE n r).length = n := by
  induction n generalizing r with
  | zero => rfl
  | succ n ih => simp [bytesLE, ih]

theorem natLE_bytesLE (n r : Nat) : natLE (bytesLE n r) = r % 256 ^ n := by
  induction n generalizing r with
  | zero => simp [bytesLE, natLE, Nat.mod_one]
  | succ n ih =>
    simp only [bytesLE, natLE, ih, Fin.ofNat]
    have h : r % 256 % (255 + 1) = r % 256 := Nat.mod_mod _ _
    rw [h, pow_succ, Nat.mul_comm (256 ^ n) 256, Nat.mod_mul]

theorem natLE_lt (bs : List Byte) : natLE bs < 256 ^ bs.length := by
  induction bs with
  | nil => simp [natLE]
  | cons b bs ih =>
    simp only [natLE, List.length_cons, pow_succ]
    have := b.isLt
    omega

theorem ScalarTy.card_pos (T : ScalarTy) : 0 < T.card := by
  unfold ScalarTy.card; positivity

theorem ScalarTy.toRaw_lt (T : ScalarTy) (v : Int) : T.toRaw v < T.card := by
  unfold ScalarTy.toRaw
  have hc : (0 : Int) < T.card := by exact_mod_cast T.card_pos
  have h1 := Int.emod_lt_of_pos v hc
  have h2 := Int.emod_nonneg v (ne_of_gt hc)
  omega

theorem ScalarTy.ofRaw_toRaw (T : ScalarTy) (v : Int) (hv : T.InRange v) :
    T.ofRaw (T.toRaw v) = v := by
  have hc : (0 : Int) < T.card := by exact_mod_cast T.card_pos
  unfold ScalarTy.InRange at hv
  unfold ScalarTy.ofRaw ScalarTy.toRaw
  cases hs : T.signed
  · simp only [hs, Bool.false_eq_true, if_false] at hv
    have hm : v % (T.card : Int) = v := Int.emod_eq_of_lt hv.1 hv.2
    rw [hm]
    simp only [Bool.false_eq_true, false_and, if_false]
    omega
  · simp only [hs, if_true] at hv
    by_cases hneg : v < 0
    · have hm : v % (T.card : Int) = v + T.card := by
        rw [← Int.add_emod_self]
        exact Int.emod_eq_of_lt (by omega) (by omega)
      rw [hm]
      have hle : T.card ≤ 2 * (v + (T.card : Int)).toNat := by omega
      simp only [hle, and_self, if_true]
      omega
    · have hm : v % (T.card : Int) = v := Int.emod_eq_of_lt (by omega) (by omega)
      rw [hm]
      have hle : ¬ T.card ≤ 2 * v.toNat := by omega
      simp only [hle, and_false, if_false]
      omega

theorem ScalarTy.encode_length (T : ScalarTy) (v : Int) : (T.encode v).length = T.size :=
  bytesLE_length _ _

theorem ScalarTy.decode_encode (T : ScalarTy) (v : Int) (hv : T.InRange v) :
    T.decode (T.encode v) = v := by
  unfold ScalarTy.decode ScalarTy.encode
  rw [natLE_bytesLE]
  have : T.toRaw v % 256 ^ T.size = T.toRaw v := Nat.mod_eq_of_lt (T.toRaw_lt v)
  rw [this]
  exact T.ofRaw_toRaw v hv


/-! ## Buffer lemmas -/

theorem Buffer.bytesAt_length (buf : Buffer) (off n : Nat) : (buf.bytesAt off n).length = n := by
  simp [Buffer.bytesAt]

theorem Buffer.bytesAt_add (buf : Buffer) (off m n : Nat) :
    buf.bytesAt off (m + n) = buf.bytesAt off m ++ buf.bytesAt (off + m) n := by
  simp [Buffer.bytesAt, List.range_add, List.map_map, Function.comp_def, Nat.add_assoc]

theorem Buffer.bytesAt_store (mem : Buffer) (p e q : List Byte) :
    (mem.store (p ++ e ++ q)).bytesAt p.length e.length = e := by
  apply List.ext_getElem
  · simp [Buffer.bytesAt]
  · intro i h1 h2
    simp only [Buffer.bytesAt, Buffer.store, List.getElem_map, List.getElem_range]
    rw [List.append_assoc, List.getD_append_right _ _ _ _ (Nat.le_add_right _ _)]
    simp only [Nat.add_sub_cancel_left]
    rw [List.getD_append _ _ _ _ h2, List.getD_eq_getElem _ _ h2]

/-- The bytes in front of the stored message are read back whatever `mem` held. -/
theorem Buffer.bytesAt_store_prefix (mem : Buffer) (bytes : List Byte) :
    (mem.store bytes).bytesAt 0 bytes.length = bytes := by
  have := Buffer.bytesAt_store mem [] bytes []
  simpa using this

/-! ## Decoding what was encoded -/

theorem SIZE_MAX_SUCC_eq : SIZE_MAX_SUCC = 18446744073709551616 := by
  unfold SIZE_MAX_SUCC; norm_num

theorem size_t_card : size_t.card = SIZE_MAX_SUCC := by
  unfold ScalarTy.card size_t SIZE_MAX_SUCC; norm_num

theorem size_t_inRange (n : Nat) (h : n < SIZE_MAX_SUCC) : size_t.InRange (n : Int) := by
  unfold ScalarTy.InRange
  rw [size_t_card]
  simp only [size_t, Bool.false_eq_true, if_false]
  omega

theorem read_from_buffer_of_bytes (T : ScalarTy) (buf : Buffer) (off : Nat) (v : Int)
    (hv : T.InRange v) (h : buf.bytesAt off T.size = T.encode v) :
    read_from_buffer T buf off = (v, (off + T.size) % SIZE_MAX_SUCC) := by
  unfold read_from_buffer
  rw [h, T.decode_encode v hv]

/-- The bytes `write_vector_to_buffer` appends: the count, then the elements. -/
theorem write_vector_to_buffer_eq (T : ScalarTy) (buffer : List Byte) (vec : List Int) :
    write_vector_to_buffer T buffer vec
      = buffer ++ size_t.encode (vec.length : Int) ++ vec.flatMap T.encode := by
  unfold write_vector_to_buffer
  suffices h : ∀ (l : List Int) (b : List Byte),
      l.foldl (fun b val => write_to_buffer T b val) b = b ++ l.flatMap T.encode by
    rw [h, write_to_buffer]
  intro l
  induction l with
  | nil => intro b; simp
  | cons x xs ih =>
    intro b
    rw [List.foldl_cons, ih, List.flatMap_cons]
    simp [write_to_buffer]

theorem flatMap_encode_length (T : ScalarTy) (s : List Int) :
    (s.flatMap T.encode).length = s.length * T.size := by
  induction s with
  | nil => simp
  | cons x xs ih =>
    rw [List.flatMap_cons, List.length_append, ih, T.encode_length, List.length_cons]
    ring

theorem read_elements_of_bytes (T : ScalarTy) (buf : Buffer) (s : List Int) :
    ∀ (off : Nat), (∀ v ∈ s, T.InRange v) → off + s.length * T.size < SIZE_MAX_SUCC →
      buf.bytesAt off (s.length * T.size) = s.flatMap T.encode →
      read_elements T buf s.length off = (s, off + s.length * T.size) := by
  induction s with
  | nil => intro off _ _ _; simp [read_elements]
  | cons x xs ih =>
    intro off hs hfit hbytes
    have hlen : (x :: xs).length * T.size = T.size + xs.length * T.size := by
      rw [List.length_cons]; ring
    rw [hlen] at hfit hbytes
    rw [Buffer.bytesAt_add, List.flatMap_cons] at hbytes
    have hsplit := List.append_inj hbytes
      (by rw [Buffer.bytesAt_length, T.encode_length])
    have hx : T.InRange x := hs x (List.mem_cons_self _ _)
    have hmod : (off + T.size) % SIZE_MAX_SUCC = off + T.size :=
      Nat.mod_eq_of_lt (by omega)
    simp only [List.length_cons, read_elements]
    rw [read_from_buffer_of_bytes T buf off x hx hsplit.1, hmod]
    simp only []
    rw [ih (off + T.size) (fun v hv => hs v (List.mem_cons_of_mem _ hv)) (by omega) hsplit.2]
    simp only [Prod.mk.injEq, true_and]
    ring

theorem read_vector_from_buffer_ok (alloc : Allocator) (T : ScalarTy) (buf : Buffer)
    (off : Nat) (h : alloc T (read_from_buffer size_t buf off).1.toNat = none) :
    read_vector_from_buffer alloc T buf off
      = (.ok (read_elements T buf (read_from_buffer size_t buf off).1.toNat
            (read_from_buffer size_t buf off).2).1,
          (read_elements T buf (read_from_buffer size_t buf off).1.toNat
            (read_from_buffer size_t buf off).2).2) := by
  simp only [read_vector_from_buffer, h]

theorem read_vector_from_buffer_throw (alloc : Allocator) (T : ScalarTy) (buf : Buffer)
    (off : Nat) (e : Exception)
    (h : alloc T (read_from_buffer size_t buf off).1.toNat = some e) :
    read_vector_from_buffer alloc T buf off
      = (.error e, (read_from_buffer size_t buf off).2) := by
  simp only [read_vector_from_buffer, h]

theorem read_count_of_bytes (buf : Buffer) (n off : Nat) (hn : n < SIZE_MAX_SUCC)
    (hfit : off + 8 < SIZE_MAX_SUCC) (hbytes : buf.bytesAt off 8 = size_t.encode (n : Int)) :
    read_from_buffer size_t buf off = ((n : Int), off + 8) := by
  have h8 : size_t.size = 8 := rfl
  rw [read_from_buffer_of_bytes size_t buf off (n : Int) (size_t_inRange _ hn)
    (by rw [h8]; exact hbytes), h8, Nat.mod_eq_of_lt hfit]

theorem read_vector_of_bytes (alloc : Allocator) (T : ScalarTy) (buf : Buffer) (s : List Int)
    (off : Nat) (hs : ∀ v ∈ s, T.InRange v) (hlen : s.length < SIZE_MAX_SUCC)
    (hfit : off + 8 + s.length * T.size < SIZE_MAX_SUCC)
    (hbytes : buf.bytesAt off (8 + s.length * T.size)
      = size_t.encode (s.length : Int) ++ s.flatMap T.encode)
    (halloc : alloc T s.length = none) :
    read_vector_from_buffer alloc T buf off = (.ok s, off + 8 + s.length * T.size) := by
  rw [Buffer.bytesAt_add] at hbytes
  have hsplit := List.append_inj hbytes
    (by rw [Buffer.bytesAt_length, size_t.encode_length]; rfl)
  have hcount := read_count_of_bytes buf s.length off hlen (by omega) hsplit.1
  rw [read_vector_from_buffer_ok alloc T buf off (by rw [hcount]; exact halloc), hcount]
  simp only [Int.toNat_ofNat]
  rw [read_elements_of_bytes T buf s (off + 8) hs (by omega) hsplit.2]

theorem read_vector_of_bytes_throw (alloc : Allocator) (T : ScalarTy) (buf : Buffer)
    (n off : Nat) (e : Exception) (hn : n < SIZE_MAX_SUCC) (hfit : off + 8 < SIZE_MAX_SUCC)
    (hbytes : buf.bytesAt off 8 = size_t.encode (n : Int)) (halloc : alloc T n = some e) :
    read_vector_from_buffer alloc T buf off = (.error e, off + 8) := by
  have hcount := read_count_of_bytes buf n off hn hfit hbytes
  rw [read_vector_from_buffer_throw alloc T buf off e (by rw [hcount]; exact halloc), hcount]

/-! ## Decoding inside and outside the bytes of a message -/

/-- A range that ends inside the stored bytes is read from them alone. -/
theorem Buffer.bytesAt_store_inside (mem : Buffer) (bytes : List Byte) (c k : Nat)
    (h : c + k ≤ bytes.length) :
    (mem.store bytes).bytesAt c k = (bytes.drop c).take k := by
  apply List.ext_getElem
  · simp [Buffer.bytesAt]; omega
  · intro i h1 h2
    simp only [Buffer.bytesAt_length] at h1
    simp only [Buffer.bytesAt, Buffer.store, List.getElem_map, List.getElem_range,
      List.getElem_take, List.getElem_drop]
    rw [List.getD_eq_getElem _ _ (by omega)]

theorem read_from_buffer_snd (T : ScalarTy) (buf : Buffer) (c : Nat) :
    (read_from_buffer T buf c).2 = (c + T.size) % SIZE_MAX_SUCC := rfl

theorem read_from_buffer_inside (T : ScalarTy) (mem mem' : Buffer) (bytes : List Byte)
    (c : Nat) (h : c + T.size ≤ bytes.length) :
    read_from_buffer T (mem.store bytes) c = read_from_buffer T (mem'.store bytes) c := by
  unfold read_from_buffer
  rw [Buffer.bytesAt_store_inside mem bytes c T.size h,
    Buffer.bytesAt_store_inside mem' bytes c T.size h]

theorem read_elements_length (T : ScalarTy) (buf : Buffer) (k : Nat) :
    ∀ off, (read_elements T buf k off).1.length = k := by
  induction k with
  | zero => intro off; rfl
  | succ k ih => intro off; simp [read_elements, ih]

theorem read_elements_snd (T : ScalarTy) (buf : Buffer) (k : Nat) :
    ∀ off, off + k * T.size < SIZE_MAX_SUCC →
      (read_elements T buf k off).2 = off + k * T.size := by
  induction k with
  | zero => intro off _; simp [read_elements]
  | succ k ih =>
    intro off h
    have hk : (k + 1) * T.size = T.size + k * T.size := by ring
    rw [hk] at h ⊢
    simp only [read_elements, read_from_buffer]
    rw [Nat.mod_eq_of_lt (by omega), ih (off + T.size) (by omega)]
    omega

theorem read_elements_inside (T : ScalarTy) (mem mem' : Buffer) (bytes : List Byte)
    (hn : bytes.length < SIZE_MAX_SUCC) (k : Nat) :
    ∀ off, off + k * T.size ≤ bytes.length →
      read_elements T (mem.store bytes) k off = read_elements T (mem'.store bytes) k off := by
  induction k with
  | zero => intro off _; rfl
  | succ k ih =>
    intro off h
    have hk : (k + 1) * T.size = T.size + k * T.size := by ring
    rw [hk] at h
    simp only [read_elements]
    rw [read_from_buffer_inside T mem mem' bytes off (by omega)]
    simp only [read_from_buffer]
    rw [Nat.mod_eq_of_lt (by omega), ih (off + T.size) (by omega)]

/-! ## Arguments and argument tuples -/

theorem encode_arg_eq (t : ArgTy) (buffer : List Byte) (v : t.Val) :
    encode_arg t buffer v = buffer ++ encode_arg t [] v := by
  cases t with
  | scalar T => simp [encode_arg, write_to_buffer]
  | vector T =>
    simp only [encode_arg]
    rw [write_vector_to_buffer_eq, write_vector_to_buffer_eq]
    simp

theorem encode_args_eq (sig : List ArgTy) :
    ∀ (buffer : List Byte) (vs : Args sig),
      encode_args sig buffer vs = buffer ++ encode_args sig [] vs := by
  induction sig with
  | nil => intro buffer vs; simp [encode_args]
  | cons t ts ih =>
    intro buffer vs
    obtain ⟨v, vs⟩ := vs
    simp only [encode_args]
    rw [ih (encode_arg t buffer v), ih (encode_arg t [] v), encode_arg_eq t buffer v]
    simp

theorem read_single_arg_of_bytes (alloc : Allocator) (t : ArgTy) (buf : Buffer) (off : Nat)
    (v : t.Val) (hv : t.InRange v) (hfit : off + (encode_arg t [] v).length < SIZE_MAX_SUCC)
    (hbytes : buf.bytesAt off (encode_arg t [] v).length = encode_arg t [] v)
    (halloc : t.Constructible alloc v) :
    read_single_arg alloc t buf off = (.ok v, off + (encode_arg t [] v).length) := by
  cases t with
  | scalar T =>
    simp only [encode_arg, write_to_buffer, List.nil_append] at hfit hbytes ⊢
    rw [T.encode_length] at hfit hbytes ⊢
    simp only [read_single_arg]
    rw [read_from_buffer_of_bytes T buf off v hv hbytes, Nat.mod_eq_of_lt hfit]
  | vector T =>
    have h8 : (size_t.encode ((List.length (α := Int) v : Nat) : Int)).length = 8 :=
      size_t.encode_length _
    simp only [encode_arg] at hfit hbytes ⊢
    rw [write_vector_to_buffer_eq] at hfit hbytes ⊢
    simp only [List.nil_append, List.length_append, h8, flatMap_encode_length]
      at hfit hbytes ⊢
    have hle : List.length (α := Int) v ≤ List.length (α := Int) v * T.size :=
      Nat.le_mul_of_pos_right _ T.size_pos
    simp only [read_single_arg]
    rw [read_vector_of_bytes alloc T buf v off hv (by omega) (by omega) hbytes halloc]
    simp only [Prod.mk.injEq, true_and]
    omega

/-- A parameter whose vector cannot be constructed makes its read throw. -/
theorem read_single_arg_not_constructible (alloc : Allocator) (t : ArgTy) (buf : Buffer)
    (off : Nat) (v : t.Val) (hfit : off + (encode_arg t [] v).length < SIZE_MAX_SUCC)
    (hbytes : buf.bytesAt off (encode_arg t [] v).length = encode_arg t [] v)
    (halloc : ¬ t.Constructible alloc v) :
    ∃ e o, read_single_arg alloc t buf off = (.error e, o) := by
  cases t with
  | scalar T => exact absurd trivial halloc
  | vector T =>
    have h8 : (size_t.encode ((List.length (α := Int) v : Nat) : Int)).length = 8 :=
      size_t.encode_length _
    simp only [encode_arg] at hfit hbytes
    rw [write_vector_to_buffer_eq] at hfit hbytes
    simp only [List.nil_append, List.length_append, h8, flatMap_encode_length]
      at hfit hbytes
    have hle : List.length (α := Int) v ≤ List.length (α := Int) v * T.size :=
      Nat.le_mul_of_pos_right _ T.size_pos
    rw [Buffer.bytesAt_add] at hbytes
    have hsplit := List.append_inj hbytes (by rw [Buffer.bytesAt_length, h8])
    simp only [ArgTy.Constructible] at halloc
    cases hcase : alloc T (List.length (α := Int) v) with
    | none => exact absurd hcase halloc
    | some e =>
      exact ⟨e, off + 8, read_vector_of_bytes_throw alloc T buf _ off e (by omega) (by omega)
        hsplit.1 hcase⟩

theorem read_args_leftToRight_cons (alloc : Allocator) (t : ArgTy) (ts : List ArgTy)
    (buf : Buffer) (c : Nat) :
    read_args_from_buffer_impl alloc .leftToRight (t :: ts) buf c
      = (match read_single_arg alloc t buf c with
        | (.error e, offset1) => (.error e, offset1)
        | (.ok v, offset1) =>
          match read_args_from_buffer_impl alloc .leftToRight ts buf offset1 with
          | (.error e, offset2) => (.error e, offset2)
          | (.ok vs, offset2) => (.ok (v, vs), offset2)) := rfl

theorem read_args_rightToLeft_cons (alloc : Allocator) (t : ArgTy) (ts : List ArgTy)
    (buf : Buffer) (c : Nat) :
    read_args_from_buffer_impl alloc .rightToLeft (t :: ts) buf c
      = (match read_args_from_buffer_impl alloc .rightToLeft ts buf c with
        | (.error e, offset1) => (.error e, offset1)
        | (.ok vs, offset1) =>
          match read_single_arg alloc t buf offset1 with
          | (.error e, offset2) => (.error e, offset2)
          | (.ok v, offset2) => (.ok (v, vs), offset2)) := rfl

/-- Reading the parameters one after the other, in declared order, from the
bytes the encoders wrote for them gives the arguments back. -/
theorem read_args_leftToRight_of_bytes (alloc : Allocator) (sig : List ArgTy) (buf : Buffer) :
    ∀ (off : Nat) (vs : Args sig), Args.InRange sig vs →
      off + (encode_args sig [] vs).length < SIZE_MAX_SUCC →
      buf.bytesAt off (encode_args sig [] vs).length = encode_args sig [] vs →
      Args.Constructible alloc sig vs →
      read_args_from_buffer_impl alloc .leftToRight sig buf off
        = (.ok vs, off + (encode_args sig [] vs).length) := by
  induction sig with
  | nil => intro off vs _ _ _ _; simp [read_args_from_buffer_impl, encode_args]
  | cons t ts ih =>
    intro off vs hv hfit hbytes halloc
    obtain ⟨v, vs⟩ := vs
    simp only [encode_args] at hfit hbytes ⊢
    rw [encode_args_eq ts (encode_arg t [] v) vs] at hfit hbytes ⊢
    rw [List.length_append] at hfit hbytes ⊢
    rw [Buffer.bytesAt_add] at hbytes
    have hsplit := List.append_inj hbytes (Buffer.bytesAt_length _ _ _)
    rw [read_args_leftToRight_cons,
      read_single_arg_of_bytes alloc t buf off v hv.1 (by omega) hsplit.1 halloc.1]
    simp only []
    rw [ih (off + (encode_arg t [] v).length) vs hv.2 (by omega) hsplit.2 halloc.2]
    simp only [Prod.mk.injEq, true_and]
    omega

/-- Read in declared order, a tuple with a vector that cannot be constructed
makes the reads throw. -/
theorem read_args_leftToRight_not_constructible (alloc : Allocator) (sig : List ArgTy)
    (buf : Buffer) :
    ∀ (off : Nat) (vs : Args sig), Args.InRange sig vs →
      off + (encode_args sig [] vs).length < SIZE_MAX_SUCC →
      buf.bytesAt off (encode_args sig [] vs).length = encode_args sig [] vs →
      ¬ Args.Constructible alloc sig vs →
      ∃ e o, read_args_from_buffer_impl alloc .leftToRight sig buf off = (.error e, o) := by
  induction sig with
  | nil => intro off vs _ _ _ h; exact absurd trivial h
  | cons t ts ih =>
    intro off vs hv hfit hbytes halloc
    obtain ⟨v, vs⟩ := vs
    simp only [encode_args] at hfit hbytes
    rw [encode_args_eq ts (encode_arg t [] v) vs] at hfit hbytes
    rw [List.length_append] at hfit hbytes
    rw [Buffer.bytesAt_add] at hbytes
    have hsplit := List.append_inj hbytes (Buffer.bytesAt_length _ _ _)
    rw [read_args_leftToRight_cons]
    by_cases h1 : t.Constructible alloc v
    · have h2 : ¬ Args.Constructible alloc ts vs := fun h => halloc ⟨h1, h⟩
      obtain ⟨e, o, he⟩ := ih (off + (encode_arg t [] v).length) vs hv.2 (by omega)
        hsplit.2 h2
      rw [read_single_arg_of_bytes alloc t buf off v hv.1 (by omega) hsplit.1 h1]
      simp only []
      rw [he]
      exact ⟨e, o, rfl⟩
    · obtain ⟨e, o, he⟩ := read_single_arg_not_constructible alloc t buf off v (by omega)
        hsplit.1 h1
      rw [he]
      exact ⟨e, o, rfl⟩

theorem dispatch_register_same (d : Dispatcher) (func_id : Nat) (h : Handler)
    (buf : Buffer) (off : Nat) :
    (d.register_handler func_id h).dispatch func_id buf off = h buf off := by
  simp [Dispatcher.dispatch, Dispatcher.register_handler]

/-! ## C3, C4: round trips of the wire codec -/

/-- C3: for every scalar type `T`, value `v` of `T`, prefix `p` and suffix `q`
(the whole buffer addressable by a `size_t`), `read_from_buffer<T>` on the
buffer `p ++ write_to_buffer(v) ++ q` with the cursor at `|p|` returns `v` and
leaves the cursor at `|p| + sizeof(T)`, whatever the memory behind the buffer
holds. -/
theorem C3_scalar_round_trip (T : ScalarTy) (v : Int) (p q : List Byte) (mem : Buffer)
    (hv : T.InRange v) (hfit : (write_to_buffer T p v ++ q).length < SIZE_MAX_SUCC) :
    read_from_buffer T (mem.store (write_to_buffer T p v ++ q)) p.length
      = (v, p.length + T.size) := by
  unfold write_to_buffer at hfit ⊢
  simp only [List.length_append, T.encode_length] at hfit
  have hb := Buffer.bytesAt_store mem p (T.encode v) q
  rw [T.encode_length] at hb
  rw [read_from_buffer_of_bytes T _ p.length v hv hb, Nat.mod_eq_of_lt (by omega)]

/-- C3 at `int32_t`, `v = -2`, one byte in front and one behind. -/
theorem C3_scalar_round_trip_witness :
    int32_t.InRange (-2) ∧
    (write_to_buffer int32_t [7] (-2) ++ [9]).length < SIZE_MAX_SUCC ∧
    read_from_buffer int32_t (Buffer.zero.store (write_to_buffer int32_t [7] (-2) ++ [9]))
      [7].length = (-2, [7].length + int32_t.size) :=
  ⟨by decide, by decide,
    C3_scalar_round_trip int32_t (-2) [7] [9] Buffer.zero (by decide) (by decide)⟩

/-- C4: for every sequence `s` of values of a scalar type `T` (the empty one
included) that the receiving side can construct as a vector, prefix `p` and
suffix `q` (the whole buffer addressable by a `size_t`),
`read_vector_from_buffer<T>` on `p ++ write_vector_to_buffer(s) ++ q` with the
cursor at `|p|` returns `s` and leaves the cursor at the first byte of `q`, at
`|p| + 8 + |s| * sizeof(T)`. -/
theorem C4_vector_round_trip (alloc : Allocator) (T : ScalarTy) (s : List Int)
    (p q : List Byte) (mem : Buffer) (hs : ∀ v ∈ s, T.InRange v)
    (hfit : (write_vector_to_buffer T p s ++ q).length < SIZE_MAX_SUCC)
    (halloc : alloc T s.length = none) :
    read_vector_from_buffer alloc T (mem.store (write_vector_to_buffer T p s ++ q)) p.length
        = (.ok s, p.length + 8 + s.length * T.size)
      ∧ (write_vector_to_buffer T p s).length = p.length + 8 + s.length * T.size := by
  rw [write_vector_to_buffer_eq] at hfit ⊢
  have h8 : (size_t.encode (s.length : Int)).length = 8 := size_t.encode_length _
  simp only [List.length_append, h8, flatMap_encode_length] at hfit ⊢
  have hpos := T.size_pos
  have hle : s.length ≤ s.length * T.size := Nat.le_mul_of_pos_right _ hpos
  refine ⟨?_, trivial⟩
  have hb := Buffer.bytesAt_store mem p
    (size_t.encode (s.length : Int) ++ s.flatMap T.encode) q
  rw [List.length_append, h8, flatMap_encode_length] at hb
  rw [← List.append_assoc] at hb
  exact read_vector_of_bytes alloc T _ s p.length hs (by omega) (by omega) hb halloc

/-- C4 at `int32_t` for `[1, -2, 3]` and for the empty sequence, one byte in
front and one behind, with the vector constructor of libstdc++ and a heap of
`2^20` bytes. -/
theorem C4_vector_round_trip_witness :
    (∀ v ∈ [1, -2, 3], int32_t.InRange v)
    ∧ (write_vector_to_buffer int32_t [7] [1, -2, 3] ++ [9]).length < SIZE_MAX_SUCC
    ∧ libstdcxx_vector (2 ^ 20) int32_t ([1, -2, 3] : List Int).length = none
    ∧ (read_vector_from_buffer (libstdcxx_vector (2 ^ 20)) int32_t
        (Buffer.zero.store (write_vector_to_buffer int32_t [7] [1, -2, 3] ++ [9])) [7].length
        = (.ok [1, -2, 3], [7].length + 8 + [1, -2, 3].length * int32_t.size)
      ∧ (write_vector_to_buffer int32_t [7] [1, -2, 3]).length
        = [7].length + 8 + [1, -2, 3].length * int32_t.size)
    ∧ (read_vector_from_buffer (libstdcxx_vector (2 ^ 20)) int32_t
        (Buffer.zero.store (write_vector_to_buffer int32_t [7] [] ++ [9])) [7].length
        = (.ok [], [7].length + 8 + ([] : List Int).length * int32_t.size)
      ∧ (write_vector_to_buffer int32_t [7] []).length
        = [7].length + 8 + ([] : List Int).length * int32_t.size) :=
  ⟨by decide, by decide, by decide,
   C4_vector_round_trip (libstdcxx_vector (2 ^ 20)) int32_t [1, -2, 3] [7] [9] Buffer.zero
    (by decide) (by decide) (by decide),
   C4_vector_round_trip (libstdcxx_vector (2 ^ 20)) int32_t [] [7] [9] Buffer.zero
    (by decide) (by decide) (by decide)⟩

/-! ## C1, C2, C5: typed handlers behind the dispatcher -/

/-- Two `int32_t` parameters read from the encodings of `a` then `b`: in
declared order the tuple is `(a, b)`, in reverse order it is `(b, a)`. -/
theorem read_two_int32 (alloc : Allocator) (order : ArgEvalOrder) (buf : Buffer) (off : Nat)
    (a b : Int) (ha : int32_t.InRange a) (hb : int32_t.InRange b)
    (hfit : off + 8 < SIZE_MAX_SUCC)
    (hbytes : buf.bytesAt off 8 = int32_t.encode a ++ int32_t.encode b) :
    read_args_from_buffer alloc order [.scalar int32_t, .scalar int32_t] buf off
      = (match order with
          | .leftToRight => (.ok (a, b, ()), off + 8)
          | .rightToLeft => (.ok (b, a, ()), off + 8)) := by
  have h4 : int32_t.size = 4 := rfl
  rw [show (8 : Nat) = 4 + 4 from rfl, Buffer.bytesAt_add] at hbytes
  have hsplit := List.append_inj hbytes
    (by rw [Buffer.bytesAt_length, int32_t.encode_length, h4])
  have r1 := read_from_buffer_of_bytes int32_t buf off a ha (by rw [h4]; exact hsplit.1)
  have r2 := read_from_buffer_of_bytes int32_t buf (off + 4) b hb
    (by rw [h4]; exact hsplit.2)
  have m1 : (off + int32_t.size) % SIZE_MAX_SUCC = off + 4 := by
    rw [h4]; exact Nat.mod_eq_of_lt (by omega)
  have m2 : (off + 4 + int32_t.size) % SIZE_MAX_SUCC = off + 8 := by
    rw [h4]; exact Nat.mod_eq_of_lt (by omega)
  rw [m1] at r1
  rw [m2] at r2
  cases order with
  | leftToRight =>
    simp only [read_args_from_buffer, read_args_from_buffer_impl, read_single_arg, r1, r2]
  | rightToLeft =>
    simp only [read_args_from_buffer, read_args_from_buffer_impl, read_single_arg, r1, r2]

/-- C1: for all `int32_t` values `a`, `b` with `a + b` representable, after
`register_typed_handler(1, add)` on any server, `dispatch(1, buffer, cursor)` on
a buffer holding the 4-byte id `1`, then `a`, then `b`, with the cursor at 4,
returns exactly the 4-byte encoding of `a + b` and leaves the cursor at 12, in
whichever order the compiler evaluates the argument reads and whatever the
vector constructor of the platform does. -/
theorem C1_dispatch_add (alloc : Allocator) (order : ArgEvalOrder) (s : Server)
    (mem : Buffer) (a b : Int)
    (ha : int32_t.InRange a) (hb : int32_t.InRange b) (hab : int32_t.InRange (a + b)) :
    (s.register_typed_handler alloc order 1 [.scalar int32_t, .scalar int32_t]
        (.scalar int32_t) add).dispatcher.dispatch 1
      (mem.store (write_to_buffer int32_t
        (write_to_buffer int32_t (write_to_buffer uint32_t [] 1) a) b)) 4
      = (.ok (int32_t.encode (a + b)), 12)
    ∧ (int32_t.encode (a + b)).length = 4
    ∧ int32_t.decode (int32_t.encode (a + b)) = a + b := by
  refine ⟨?_, int32_t.encode_length _, int32_t.decode_encode _ hab⟩
  have hbytes := Buffer.bytesAt_store mem (uint32_t.encode 1)
    (int32_t.encode a ++ int32_t.encode b) []
  simp only [List.length_append, ScalarTy.encode_length, List.append_nil] at hbytes
  have hargs := read_two_int32 alloc order
    (mem.store (uint32_t.encode 1 ++ (int32_t.encode a ++ int32_t.encode b))) 4 a b ha hb
    (by rw [SIZE_MAX_SUCC_eq]; norm_num) hbytes
  simp only [Server.register_typed_handler, Server.register_handler,
    dispatch_register_same, typed_handler, write_to_buffer, List.nil_append,
    List.append_assoc]
  rw [hargs]
  cases order with
  | leftToRight => simp [call_with_tuple, add, serialize_result, write_to_buffer]
  | rightToLeft =>
    simp [call_with_tuple, add, serialize_result, write_to_buffer, Int.add_comm b a]

/-- C1 at `a = 3`, `b = 5`: the reply is the encoding of `8`, the bytes
`08 00 00 00`. -/
theorem C1_dispatch_add_witness :
    int32_t.InRange 3 ∧ int32_t.InRange 5 ∧ int32_t.InRange (3 + 5) ∧
    ((Server.empty.register_typed_handler (libstdcxx_vector (2 ^ 20)) .rightToLeft 1
        [.scalar int32_t, .scalar int32_t]
        (.scalar int32_t) add).dispatcher.dispatch 1
      (Buffer.zero.store (write_to_buffer int32_t
        (write_to_buffer int32_t (write_to_buffer uint32_t [] 1) 3) 5)) 4
      = (.ok (int32_t.encode (3 + 5)), 12)
    ∧ (int32_t.encode (3 + 5)).length = 4
    ∧ int32_t.decode (int32_t.encode (3 + 5)) = 3 + 5)
    ∧ int32_t.encode (3 + 5) = [8, 0, 0, 0] :=
  ⟨by decide, by decide, by decide,
    C1_dispatch_add (libstdcxx_vector (2 ^ 20)) .rightToLeft Server.empty Buffer.zero 3 5
      (by decide) (by decide) (by decide),
    by decide⟩

/-- Read right to left, a `(scalar, vector)` signature decodes its vector first,
from the bytes at the cursor, where the scalar was written: when the vector
constructor throws there, so does the handler. -/
theorem typed_handler_rightToLeft_scalar_vector_throw (alloc : Allocator) (T1 T2 : ScalarTy)
    (ret : ArgTy) (func : Args [.scalar T1, .vector T2] → ret.Val) (buf : Buffer) (off : Nat)
    (e : Exception) (h : alloc T2 (read_from_buffer size_t buf off).1.toNat = some e) :
    typed_handler alloc .rightToLeft [.scalar T1, .vector T2] ret func buf off
      = (.error e, (read_from_buffer size_t buf off).2) := by
  simp only [typed_handler, read_args_from_buffer, read_args_from_buffer_impl, read_single_arg,
    read_vector_from_buffer_throw alloc T2 buf off e h]

/-- When the compiler evaluates the argument reads left to right, the typed
handler of any `func` decodes parameter `i` from the `i`-th encoding on the wire
and returns the encoding of `func` applied to the arguments. -/
theorem typed_handler_leftToRight (alloc : Allocator) (sig : List ArgTy) (ret : ArgTy)
    (func : Args sig → ret.Val) (buf : Buffer) (off : Nat) (vs : Args sig)
    (hv : Args.InRange sig vs)
    (hfit : off + (encode_args sig [] vs).length < SIZE_MAX_SUCC)
    (hbytes : buf.bytesAt off (encode_args sig [] vs).length = encode_args sig [] vs)
    (halloc : Args.Constructible alloc sig vs) :
    typed_handler alloc .leftToRight sig ret func buf off
      = (.ok (serialize_result ret (func vs)), off + (encode_args sig [] vs).length) := by
  simp only [typed_handler, read_args_from_buffer, call_with_tuple]
  rw [read_args_leftToRight_of_bytes alloc sig buf off vs hv hfit hbytes halloc]

/-- A complete request with a vector that cannot be constructed makes the
handler that reads in declared order throw. -/
theorem typed_handler_leftToRight_throw (alloc : Allocator) (sig : List ArgTy) (ret : ArgTy)
    (func : Args sig → ret.Val) (buf : Buffer) (off : Nat) (vs : Args sig)
    (hv : Args.InRange sig vs)
    (hfit : off + (encode_args sig [] vs).length < SIZE_MAX_SUCC)
    (hbytes : buf.bytesAt off (encode_args sig [] vs).length = encode_args sig [] vs)
    (halloc : ¬ Args.Constructible alloc sig vs) :
    ∃ e o, typed_handler alloc .leftToRight sig ret func buf off = (.error e, o) := by
  obtain ⟨e, o, he⟩ := read_args_leftToRight_not_constructible alloc sig buf off vs hv hfit
    hbytes halloc
  refine ⟨e, o, ?_⟩
  simp only [typed_handler, read_args_from_buffer]
  rw [he]

/-- C2, evaluated: with `sub(a, b) = a - b` registered under id 1 and the
request `1, 5, 3` (the arguments `a = 5`, `b = 3` in declared order), a server
whose compiler evaluates call arguments right to left reads `b` from the first
four argument bytes and `a` from the next four, and replies with the encoding of
`3 - 5 = -2`; the encoding of `sub(5, 3) = 2` is a different byte string. The
same server built with left-to-right evaluation replies with the encoding of
`2`. For the mixed signature `(int32_t, std::vector<int32_t>)` and the request
`3, 2, [1, 2, 3]`, right-to-left evaluation decodes the sequence first, from the
bytes of the scalar: its count is read as `12884901890` instead of `3`, and
with libstdc++ and 4 GiB to give the vector constructor throws `std::bad_alloc`
with the cursor at 12; left-to-right evaluation replies with the encoding of
`2 * (1 + 2 + 3) = 12`. -/
theorem C2_rightToLeft_swaps_arguments :
    (Server.empty.register_typed_handler (libstdcxx_vector (2 ^ 32)) .rightToLeft 1
        [.scalar int32_t, .scalar int32_t]
        (.scalar int32_t) sub).dispatcher.dispatch 1
      (Buffer.zero.store (request_encoding 1 [.scalar int32_t, .scalar int32_t] (5, 3, ()))) 4
      = (.ok (int32_t.encode (-2)), 12)
    ∧ sub (5, 3, ()) = 2
    ∧ int32_t.encode (-2) ≠ int32_t.encode (sub (5, 3, ()))
    ∧ (Server.empty.register_typed_handler (libstdcxx_vector (2 ^ 32)) .leftToRight 1
        [.scalar int32_t, .scalar int32_t]
        (.scalar int32_t) sub).dispatcher.dispatch 1
      (Buffer.zero.store (request_encoding 1 [.scalar int32_t, .scalar int32_t] (5, 3, ()))) 4
      = (.ok (int32_t.encode (sub (5, 3, ()))), 12)
    ∧ (read_from_buffer size_t
        (Buffer.zero.store
          (request_encoding 3 [.scalar int32_t, .vector int32_t] (2, [1, 2, 3], ())))
        4).1 = 12884901890
    ∧ (Server.empty.register_typed_handler (libstdcxx_vector (2 ^ 32)) .rightToLeft 3
        [.scalar int32_t, .vector int32_t]
        (.scalar int32_t) scaled_sum).dispatcher.dispatch 3
      (Buffer.zero.store
        (request_encoding 3 [.scalar int32_t, .vector int32_t] (2, [1, 2, 3], ()))) 4
      = (.error .bad_alloc, 12)
    ∧ (Server.empty.register_typed_handler (libstdcxx_vector (2 ^ 32)) .leftToRight 3
        [.scalar int32_t, .vector int32_t]
        (.scalar int32_t) scaled_sum).dispatcher.dispatch 3
      (Buffer.zero.store
        (request_encoding 3 [.scalar int32_t, .vector int32_t] (2, [1, 2, 3], ()))) 4
      = (.ok (int32_t.encode (scaled_sum (2, [1, 2, 3], ()))), 28)
    ∧ scaled_sum (2, [1, 2, 3], ()) = 12 := by
  refine ⟨by decide, by decide, by decide, by decide, by decide, ?_, by decide, by decide⟩
  simp only [Server.register_typed_handler, Server.register_handler, dispatch_register_same]
  rw [typed_handler_rightToLeft_scalar_vector_throw _ _ _ _ _ _ _ .bad_alloc (by decide)]
  decide

/-- C5: for every list `xs` of `int32_t` values whose running sum stays
representable and that the server can construct as a vector, after
`register_typed_handler(2, sum)` on any server, dispatching id 2 on a buffer
holding the id followed by the sequence encoding of `xs`, with the cursor at 4,
returns the 4-byte encoding of the sum of `xs` and leaves the cursor behind the
last element. -/
theorem C5_dispatch_sum (alloc : Allocator) (order : ArgEvalOrder) (s : Server)
    (mem : Buffer) (xs : List Int)
    (hxs : ∀ x ∈ xs, int32_t.InRange x)
    (hrun : ∀ k, k ≤ xs.length → int32_t.InRange (xs.take k).sum)
    (hfit : (write_vector_to_buffer int32_t (write_to_buffer uint32_t [] 2) xs).length
      < SIZE_MAX_SUCC)
    (halloc : alloc int32_t xs.length = none) :
    (s.register_typed_handler alloc order 2 [.vector int32_t] (.scalar int32_t)
        sum).dispatcher.dispatch 2
      (mem.store (write_vector_to_buffer int32_t (write_to_buffer uint32_t [] 2) xs)) 4
      = (.ok (int32_t.encode xs.sum), 4 + 8 + xs.length * 4)
    ∧ (int32_t.encode xs.sum).length = 4
    ∧ int32_t.decode (int32_t.encode xs.sum) = xs.sum := by
  have hsum : int32_t.InRange xs.sum := by
    have := hrun xs.length (Nat.le_refl _)
    rwa [List.take_length] at this
  refine ⟨?_, int32_t.encode_length _, int32_t.decode_encode _ hsum⟩
  have hid : (write_to_buffer uint32_t [] 2).length = 4 := by
    simp [write_to_buffer, ScalarTy.encode_length, uint32_t]
  have h8 : (size_t.encode (xs.length : Int)).length = 8 := size_t.encode_length _
  have h4 : int32_t.size = 4 := rfl
  rw [write_vector_to_buffer_eq] at hfit ⊢
  simp only [List.length_append, hid, h8, flatMap_encode_length, h4] at hfit
  have hb := Buffer.bytesAt_store mem (write_to_buffer uint32_t [] 2)
    (size_t.encode (xs.length : Int) ++ xs.flatMap int32_t.encode) []
  rw [List.length_append, h8, flatMap_encode_length, hid, List.append_nil,
    ← List.append_assoc] at hb
  have hrt := read_vector_of_bytes alloc int32_t _ xs 4 hxs (by omega) (by rw [h4]; omega) hb
    halloc
  rw [h4] at hrt
  simp only [Server.register_typed_handler, Server.register_handler,
    dispatch_register_same, typed_handler, read_args_from_buffer]
  cases order with
  | leftToRight =>
    simp only [read_args_from_buffer_impl, read_single_arg]
    rw [hrt]
    simp only [call_with_tuple, sum, serialize_result, write_to_buffer, List.nil_append,
      List.sum_eq_foldl]
  | rightToLeft =>
    simp only [read_args_from_buffer_impl, read_single_arg]
    rw [hrt]
    simp only [call_with_tuple, sum, serialize_result, write_to_buffer, List.nil_append,
      List.sum_eq_foldl]

/-- C5 at `xs = [1, 2, 3, 4]`, where the reply is the encoding of `10`, and at
`xs = []`, where it is the encoding of `0`. -/
theorem C5_dispatch_sum_witness :
    (∀ x ∈ [1, 2, 3, 4], int32_t.InRange x)
    ∧ (∀ k, k ≤ [1, 2, 3, 4].length → int32_t.InRange (([1, 2, 3, 4] : List Int).take k).sum)
    ∧ (write_vector_to_buffer int32_t (write_to_buffer uint32_t [] 2) [1, 2, 3, 4]).length
        < SIZE_MAX_SUCC
    ∧ libstdcxx_vector (2 ^ 20) int32_t ([1, 2, 3, 4] : List Int).length = none
    ∧ ((Server.empty.register_typed_handler (libstdcxx_vector (2 ^ 20)) .leftToRight 2
        [.vector int32_t] (.scalar int32_t)
        sum).dispatcher.dispatch 2
      (Buffer.zero.store
        (write_vector_to_buffer int32_t (write_to_buffer uint32_t [] 2) [1, 2, 3, 4])) 4
      = (.ok (int32_t.encode ([1, 2, 3, 4] : List Int).sum), 4 + 8 + [1, 2, 3, 4].length * 4)
    ∧ (int32_t.encode ([1, 2, 3, 4] : List Int).sum).length = 4
    ∧ int32_t.decode (int32_t.encode ([1, 2, 3, 4] : List Int).sum)
        = ([1, 2, 3, 4] : List Int).sum)
    ∧ int32_t.encode ([1, 2, 3, 4] : List Int).sum = int32_t.encode 10
    ∧ ((Server.empty.register_typed_handler (libstdcxx_vector (2 ^ 20)) .rightToLeft 2
        [.vector int32_t] (.scalar int32_t)
        sum).dispatcher.dispatch 2
      (Buffer.zero.store
        (write_vector_to_buffer int32_t (write_to_buffer uint32_t [] 2) [])) 4
      = (.ok (int32_t.encode ([] : List Int).sum), 4 + 8 + ([] : List Int).length * 4)
    ∧ (int32_t.encode ([] : List Int).sum).length = 4
    ∧ int32_t.decode (int32_t.encode ([] : List Int).sum) = ([] : List Int).sum)
    ∧ int32_t.encode ([] : List Int).sum = int32_t.encode 0 :=
  ⟨by decide, by decide, by decide, by decide,
    C5_dispatch_sum (libstdcxx_vector (2 ^ 20)) .leftToRight Server.empty Buffer.zero
      [1, 2, 3, 4] (by decide) (by decide) (by decide) (by decide),
    by decide,
    C5_dispatch_sum (libstdcxx_vector (2 ^ 20)) .rightToLeft Server.empty Buffer.zero []
      (by decide) (by decide) (by decide) (by decide),
    by decide⟩

/-! ## C6, C9: the dispatcher -/

/-- C6, as the claim states its second half, fails: an id that has a registered
handler can make `dispatch` fail with the unknown-function error of that very
id, because `dispatch` lets whatever the handler throws propagate. Here id 5 is
registered with a handler that throws
`std::runtime_error("Unknown function ID: 5")`. -/
theorem C6_registered_handler_may_throw :
    ((Dispatcher.empty.register_handler 5
        (throwing_handler "Unknown function ID: 5")).handlers 5).isSome = true
    ∧ (Dispatcher.empty.register_handler 5
        (throwing_handler "Unknown function ID: 5")).dispatch 5 Buffer.zero 4
      = (.error (unknown_function 5), 4) := by
  refine ⟨by decide, by decide⟩

/-- C6, amended: for every registry state and every id with no registered
handler, `dispatch(id, buffer, cursor)` fails with the `std::runtime_error`
whose text is `Unknown function ID: ` followed by the id, an outcome fixed by
the id and the cursor alone (no handler is applied), and leaves the cursor at
its value before the call; `dispatch` is a `const` member, the registry is not
among its results. For every id that has a registered handler, `dispatch`
returns exactly what that handler returns, result, exception and cursor alike,
so it fails with the unknown-function error only if the handler itself throws
it. -/
theorem C6_dispatch_unknown_function (d : Dispatcher) (func_id : Nat) (buf : Buffer)
    (cursor : Nat) :
    (d.handlers func_id = none →
      d.dispatch func_id buf cursor
        = (.error (.runtime_error ("Unknown function ID: " ++ toString func_id)), cursor))
    ∧ (∀ h, d.handlers func_id = some h → d.dispatch func_id buf cursor = h buf cursor)
    ∧ (∀ h, d.handlers func_id = some h →
        (d.dispatch func_id buf cursor).1 = .error (unknown_function func_id) →
        (h buf cursor).1 = .error (unknown_function func_id)) := by
  refine ⟨?_, ?_, ?_⟩
  · intro h
    simp [Dispatcher.dispatch, h]
  · intro h hh
    simp [Dispatcher.dispatch, hh]
  · intro h hh herr
    simpa [Dispatcher.dispatch, hh] using herr

/-- C6 on a registry holding only ids 1 and 2: id 99 fails with
`Unknown function ID: 99` and the cursor stays at 4; id 1 returns what its
handler returns. -/
theorem C6_dispatch_unknown_function_witness :
    (((Server.empty.register_typed_handler (libstdcxx_vector (2 ^ 20)) .leftToRight 1
        [.scalar int32_t, .scalar int32_t] (.scalar int32_t) add).register_typed_handler
        (libstdcxx_vector (2 ^ 20)) .leftToRight 2 [.vector int32_t]
        (.scalar int32_t) sum).dispatcher.handlers 99).isNone = true
    ∧ ((Server.empty.register_typed_handler (libstdcxx_vector (2 ^ 20)) .leftToRight 1
        [.scalar int32_t, .scalar int32_t] (.scalar int32_t) add).register_typed_handler
        (libstdcxx_vector (2 ^ 20)) .leftToRight 2 [.vector int32_t]
        (.scalar int32_t) sum).dispatcher.dispatch 99 Buffer.zero 4
      = (.error (.runtime_error "Unknown function ID: 99"), 4)
    ∧ ((Server.empty.register_typed_handler (libstdcxx_vector (2 ^ 20)) .leftToRight 1
        [.scalar int32_t, .scalar int32_t] (.scalar int32_t) add).register_typed_handler
        (libstdcxx_vector (2 ^ 20)) .leftToRight 2 [.vector int32_t]
        (.scalar int32_t) sum).dispatcher.dispatch 1 Buffer.zero 4
      = typed_handler (libstdcxx_vector (2 ^ 20)) .leftToRight
          [.scalar int32_t, .scalar int32_t] (.scalar int32_t) add Buffer.zero 4 :=
  ⟨by decide,
    (C6_dispatch_unknown_function _ 99 Buffer.zero 4).1 rfl,
    (C6_dispatch_unknown_function _ 1 Buffer.zero 4).2.1 _ rfl⟩

/-- C9: for every registry, ids `i`, `j` and handlers `h1`, `h2`: after
`register_handler(i, h1)` followed by `register_handler(i, h2)`,
`dispatch(i, buffer, cursor)` returns exactly what `h2(buffer, cursor)` returns,
result and cursor alike (the last registration wins), and for every `j ≠ i` the
result of `dispatch(j, ...)` is what it was before either registration. -/
theorem C9_last_registration_wins (d : Dispatcher) (i j : Nat) (h1 h2 : Handler)
    (buf : Buffer) (cursor : Nat) :
    ((d.register_handler i h1).register_handler i h2).dispatch i buf cursor = h2 buf cursor
    ∧ (j ≠ i →
      ((d.register_handler i h1).register_handler i h2).dispatch j buf cursor
        = d.dispatch j buf cursor) := by
  refine ⟨?_, ?_⟩
  · simp [Dispatcher.dispatch, Dispatcher.register_handler]
  · intro hji
    simp [Dispatcher.dispatch, Dispatcher.register_handler, hji]

/-- C9 with `i = 1`, `j = 2`: id 1 is registered twice, id 2 was registered
before and keeps its handler. -/
theorem C9_last_registration_wins_witness :
    (2 : Nat) ≠ 1
    ∧ (((Dispatcher.empty.register_handler 2 (constant_handler [2])).register_handler 1
          (constant_handler [7])).register_handler 1
          (constant_handler [9])).dispatch 1 Buffer.zero 4
        = constant_handler [9] Buffer.zero 4
    ∧ (((Dispatcher.empty.register_handler 2 (constant_handler [2])).register_handler 1
          (constant_handler [7])).register_handler 1
          (constant_handler [9])).dispatch 2 Buffer.zero 4
        = (Dispatcher.empty.register_handler 2 (constant_handler [2])).dispatch 2
            Buffer.zero 4
    ∧ (Dispatcher.empty.register_handler 2 (constant_handler [2])).dispatch 2 Buffer.zero 4
        = (.ok [2], 4) :=
  ⟨by decide,
    (C9_last_registration_wins (Dispatcher.empty.register_handler 2 (constant_handler [2]))
      1 2 (constant_handler [7]) (constant_handler [9]) Buffer.zero 4).1,
    (C9_last_registration_wins (Dispatcher.empty.register_handler 2 (constant_handler [2]))
      1 2 (constant_handler [7]) (constant_handler [9]) Buffer.zero 4).2 (by decide),
    by decide⟩

/-! ## C7, C8: what the decoders do with short buffers and large counts -/

theorem read_vector_from_buffer_inside (alloc : Allocator) (T : ScalarTy) (mem mem' : Buffer)
    (bytes : List Byte) (hn : bytes.length < SIZE_MAX_SUCC) (c : Nat)
    (h : c + 8 + (read_from_buffer size_t (mem.store bytes) c).1.toNat * T.size
      ≤ bytes.length) :
    read_vector_from_buffer alloc T (mem.store bytes) c
      = read_vector_from_buffer alloc T (mem'.store bytes) c := by
  have h8 : size_t.size = 8 := rfl
  have hcount := read_from_buffer_inside size_t mem mem' bytes c (by rw [h8]; omega)
  have hoff : (read_from_buffer size_t (mem.store bytes) c).2 = c + 8 := by
    rw [read_from_buffer_snd, h8, Nat.mod_eq_of_lt (by omega)]
  unfold read_vector_from_buffer
  rw [← hcount]
  cases alloc T (read_from_buffer size_t (mem.store bytes) c).1.toNat with
  | some e => rfl
  | none =>
    simp only []
    rw [hoff, read_elements_inside T mem mem' bytes hn _ (c + 8) (by omega)]

theorem read_vector_from_buffer_snd_ok (alloc : Allocator) (T : ScalarTy) (buf : Buffer)
    (c : Nat) (halloc : alloc T (read_from_buffer size_t buf c).1.toNat = none)
    (h : c + 8 + (read_from_buffer size_t buf c).1.toNat * T.size < SIZE_MAX_SUCC) :
    read_vector_from_buffer alloc T buf c
      = (.ok (read_elements T buf (read_from_buffer size_t buf c).1.toNat (c + 8)).1,
          c + 8 + (read_from_buffer size_t buf c).1.toNat * T.size) := by
  have h8 : size_t.size = 8 := rfl
  have hoff : (read_from_buffer size_t buf c).2 = c + 8 := by
    rw [read_from_buffer_snd, h8, Nat.mod_eq_of_lt (by omega)]
  rw [read_vector_from_buffer_ok alloc T buf c halloc, hoff,
    read_elements_snd T buf _ (c + 8) h]

theorem read_vector_from_buffer_snd_throw (alloc : Allocator) (T : ScalarTy) (buf : Buffer)
    (c : Nat) (e : Exception) (halloc : alloc T (read_from_buffer size_t buf c).1.toNat = some e)
    (h : c + 8 < SIZE_MAX_SUCC) :
    read_vector_from_buffer alloc T buf c = (.error e, c + 8) := by
  have h8 : size_t.size = 8 := rfl
  rw [read_vector_from_buffer_throw alloc T buf c e halloc, read_from_buffer_snd, h8,
    Nat.mod_eq_of_lt h]

/-- An exception that leaves a read of one parameter is one the vector
constructor threw. -/
theorem read_single_arg_error_source (alloc : Allocator) (t : ArgTy) (buf : Buffer) (c : Nat)
    (e : Exception) (o : Nat) (h : read_single_arg alloc t buf c = (.error e, o)) :
    ∃ T n, alloc T n = some e := by
  cases t with
  | scalar T => simp [read_single_arg] at h
  | vector T =>
    simp only [read_single_arg] at h
    cases hcase : alloc T (read_from_buffer size_t buf c).1.toNat with
    | none =>
      rw [read_vector_from_buffer_ok alloc T buf c hcase] at h
      simp at h
    | some e1 =>
      rw [read_vector_from_buffer_throw alloc T buf c e1 hcase] at h
      simp only [Prod.mk.injEq, Except.error.injEq] at h
      exact ⟨T, _, h.1 ▸ hcase⟩

/-- An exception that leaves the reads of a tuple is one the vector constructor
threw. -/
theorem read_args_error_source (alloc : Allocator) (order : ArgEvalOrder) (sig : List ArgTy)
    (buf : Buffer) :
    ∀ (c : Nat) (e : Exception) (o : Nat),
      read_args_from_buffer_impl alloc order sig buf c = (.error e, o) →
      ∃ T n, alloc T n = some e := by
  induction sig with
  | nil => intro c e o h; simp [read_args_from_buffer_impl] at h
  | cons t ts ih =>
    intro c e o h
    cases order with
    | leftToRight =>
      rw [read_args_leftToRight_cons] at h
      rcases h1 : read_single_arg alloc t buf c with ⟨r1, o1⟩
      rw [h1] at h
      cases r1 with
      | error e1 =>
        simp only [Prod.mk.injEq, Except.error.injEq] at h
        exact read_single_arg_error_source alloc t buf c e o1 (by rw [h1, h.1])
      | ok v =>
        simp only [] at h
        rcases h2 : read_args_from_buffer_impl alloc .leftToRight ts buf o1 with ⟨r2, o2⟩
        rw [h2] at h
        cases r2 with
        | error e2 =>
          simp only [Prod.mk.injEq, Except.error.injEq] at h
          exact ih o1 e o2 (by rw [h2, h.1])
        | ok vs => simp at h
    | rightToLeft =>
      rw [read_args_rightToLeft_cons] at h
      rcases h1 : read_args_from_buffer_impl alloc .rightToLeft ts buf c with ⟨r1, o1⟩
      rw [h1] at h
      cases r1 with
      | error e1 =>
        simp only [Prod.mk.injEq, Except.error.injEq] at h
        exact ih c e o1 (by rw [h1, h.1])
      | ok vs =>
        simp only [] at h
        rcases h2 : read_single_arg alloc t buf o1 with ⟨r2, o2⟩
        rw [h2] at h
        cases r2 with
        | error e2 =>
          simp only [Prod.mk.injEq, Except.error.injEq] at h
          exact read_single_arg_error_source alloc t buf o1 e o2 (by rw [h2, h.1])
        | ok v => simp at h

/-- The reads of scalar parameters never throw. -/
theorem read_args_all_scalar (alloc : Allocator) (order : ArgEvalOrder) (sig : List ArgTy)
    (buf : Buffer) :
    ∀ (c : Nat), all_scalar sig →
      ∃ args o, read_args_from_buffer_impl alloc order sig buf c = (.ok args, o) := by
  induction sig with
  | nil => intro c _; exact ⟨(), c, rfl⟩
  | cons t ts ih =>
    intro c h
    cases t with
    | vector T => exact absurd h (by simp [all_scalar])
    | scalar T =>
      have hts : all_scalar ts := by simpa [all_scalar] using h
      cases order with
      | leftToRight =>
        obtain ⟨args, o, hargs⟩ := ih (read_from_buffer T buf c).2 hts
        refine ⟨((read_from_buffer T buf c).1, args), o, ?_⟩
        rw [read_args_leftToRight_cons]
        simp only [read_single_arg]
        rw [hargs]
      | rightToLeft =>
        obtain ⟨args, o, hargs⟩ := ih c hts
        refine ⟨((read_from_buffer T buf o).1, args), (read_from_buffer T buf o).2, ?_⟩
        rw [read_args_rightToLeft_cons, hargs]
        simp only [read_single_arg]

theorem typed_handler_error_source (alloc : Allocator) (order : ArgEvalOrder)
    (sig : List ArgTy) (ret : ArgTy) (func : Args sig → ret.Val) (buf : Buffer) (c : Nat)
    (e : Exception) (o : Nat) (h : typed_handler alloc order sig ret func buf c = (.error e, o)) :
    ∃ T n, alloc T n = some e := by
  simp only [typed_handler, read_args_from_buffer] at h
  rcases h1 : read_args_from_buffer_impl alloc order sig buf c with ⟨r1, o1⟩
  rw [h1] at h
  cases r1 with
  | error e1 =>
    simp only [Prod.mk.injEq, Except.error.injEq] at h
    exact read_args_error_source alloc order sig buf c e o1 (by rw [h1, h.1])
  | ok args => simp at h

theorem typed_handler_all_scalar (alloc : Allocator) (order : ArgEvalOrder)
    (sig : List ArgTy) (ret : ArgTy) (func : Args sig → ret.Val) (buf : Buffer) (c : Nat)
    (h : all_scalar sig) :
    ∃ reply o, typed_handler alloc order sig ret func buf c = (.ok reply, o) := by
  obtain ⟨args, o, hargs⟩ := read_args_all_scalar alloc order sig buf c h
  refine ⟨serialize_result ret (call_with_tuple func args), o, ?_⟩
  simp only [typed_handler, read_args_from_buffer]
  rw [hargs]

/-- C7, as stated, fails: nothing in the decoders knows the length of the
buffer, and no Truncated error exists. With only the two bytes `01 02` received
(`n = 2`) and the cursor at 0, `read_from_buffer<int32_t>` returns a value and
leaves the cursor at `4 > n`; the value is made of the two bytes behind the
message too (`513` over zeroed memory, `-65023` over `0xFF` memory). A sequence
whose count `2` is complete but whose elements are missing is decoded from the
memory behind the message and leaves the cursor at `16 > 8`. A request that
holds nothing but the id makes the handler of `add` reply instead of failing,
with the cursor at `12 > 4`; the same for the handler of `sum` over `0xFF`
memory reads the count `2^64 - 1` behind the message and fails with the
`std::length_error` of the vector constructor, the cursor at `12 > 4`. -/
theorem C7_truncated_decode_succeeds :
    read_from_buffer int32_t (Buffer.zero.store [1, 2]) 0 = (513, 4)
    ∧ read_from_buffer int32_t (Buffer.ones.store [1, 2]) 0 = (-65023, 4)
    ∧ ¬ ((read_from_buffer int32_t (Buffer.zero.store [1, 2]) 0).2 ≤ [1, 2].length)
    ∧ read_vector_from_buffer (libstdcxx_vector (2 ^ 20)) int32_t
        (Buffer.zero.store (size_t.encode 2)) 0 = (.ok [0, 0], 16)
    ∧ read_vector_from_buffer (libstdcxx_vector (2 ^ 20)) int32_t
        (Buffer.ones.store (size_t.encode 2)) 0 = (.ok [-1, -1], 16)
    ∧ (size_t.encode 2).length = 8
    ∧ (Server.empty.register_typed_handler (libstdcxx_vector (2 ^ 20)) .leftToRight 1
        [.scalar int32_t, .scalar int32_t]
        (.scalar int32_t) add).dispatcher.dispatch 1 (Buffer.ones.store (uint32_t.encode 1)) 4
      = (.ok (int32_t.encode (-2)), 12)
    ∧ (uint32_t.encode 1).length = 4
    ∧ (Server.empty.register_typed_handler (libstdcxx_vector (2 ^ 20)) .leftToRight 2
        [.vector int32_t]
        (.scalar int32_t) sum).dispatcher.dispatch 2 (Buffer.ones.store (uint32_t.encode 2)) 4
      = (.error (.length_error "cannot create std::vector larger than max_size()"), 12)
    ∧ (read_from_buffer size_t (Buffer.ones.store (uint32_t.encode 2)) 4).1
        = 18446744073709551615 := by
  refine ⟨by decide, by decide, by decide, by decide, by decide, by decide, by decide,
    by decide, by decide, by decide⟩

/-- C7, amended: the decoders check no bound and raise no Truncated error. For
every scalar type `T`, every buffer of `n < 2^64` bytes and every cursor `c`,
`read_from_buffer<T>` returns a value and leaves the cursor at `c + sizeof(T)`
(modulo `2^64`). When `c + sizeof(T) ≤ n` the value is made of bytes of the
buffer alone (it is the same whatever the memory behind the buffer holds) and
the cursor stays `≤ n`; a sequence whose count and counted elements end at or
before `n` is likewise decoded from the buffer alone (result, exception and
cursor are the same over any memory), the cursor stays `≤ n` and is
`c + 8 + count * sizeof(T)` when the vector is constructed. When fewer than
`sizeof(T)` bytes remain the cursor ends beyond `n`. A typed handler whose
parameters are all scalars always returns a reply; with sequence parameters the
only exception that can leave a handler is one the vector constructor threw for
a count it was given. -/
theorem C7_decode_checks_no_bound (alloc : Allocator) (T : ScalarTy) (bytes : List Byte)
    (mem mem' : Buffer) (c : Nat) (hn : bytes.length < SIZE_MAX_SUCC) :
    (read_from_buffer T (mem.store bytes) c).2 = (c + T.size) % SIZE_MAX_SUCC
    ∧ (c + T.size ≤ bytes.length →
        read_from_buffer T (mem.store bytes) c = read_from_buffer T (mem'.store bytes) c
        ∧ (read_from_buffer T (mem.store bytes) c).2 ≤ bytes.length)
    ∧ (bytes.length < c + T.size → c + T.size < SIZE_MAX_SUCC →
        bytes.length < (read_from_buffer T (mem.store bytes) c).2)
    ∧ (c + 8 + (read_from_buffer size_t (mem.store bytes) c).1.toNat * T.size ≤ bytes.length →
        read_vector_from_buffer alloc T (mem.store bytes) c
          = read_vector_from_buffer alloc T (mem'.store bytes) c
        ∧ (alloc T (read_from_buffer size_t (mem.store bytes) c).1.toNat = none →
          (read_vector_from_buffer alloc T (mem.store bytes) c).2
            = c + 8 + (read_from_buffer size_t (mem.store bytes) c).1.toNat * T.size)
        ∧ (read_vector_from_buffer alloc T (mem.store bytes) c).2 ≤ bytes.length)
    ∧ (∀ order sig ret (func : Args sig → ret.Val), all_scalar sig →
        ∃ reply cursor1,
          typed_handler alloc order sig ret func (mem.store bytes) c = (.ok reply, cursor1))
    ∧ (∀ order sig ret (func : Args sig → ret.Val) e cursor1,
        typed_handler alloc order sig ret func (mem.store bytes) c = (.error e, cursor1) →
        ∃ T1 n, alloc T1 n = some e) := by
  have h8 : size_t.size = 8 := rfl
  refine ⟨rfl, ?_, ?_, ?_, ?_, ?_⟩
  · intro h
    refine ⟨read_from_buffer_inside T mem mem' bytes c h, ?_⟩
    rw [read_from_buffer_snd, Nat.mod_eq_of_lt (by omega)]
    exact h
  · intro h hlt
    rw [read_from_buffer_snd, Nat.mod_eq_of_lt hlt]
    exact h
  · intro h
    refine ⟨read_vector_from_buffer_inside alloc T mem mem' bytes hn c h, ?_, ?_⟩
    · intro halloc
      rw [read_vector_from_buffer_snd_ok alloc T _ c halloc (by omega)]
    · cases hcase : alloc T (read_from_buffer size_t (mem.store bytes) c).1.toNat with
      | none =>
        rw [read_vector_from_buffer_snd_ok alloc T _ c hcase (by omega)]
        exact h
      | some e =>
        rw [read_vector_from_buffer_snd_throw alloc T _ c e hcase (by omega)]
        show c + 8 ≤ bytes.length
        omega
  · intro order sig ret func hsig
    exact typed_handler_all_scalar alloc order sig ret func _ c hsig
  · intro order sig ret func e cursor1 h
    exact typed_handler_error_source alloc order sig ret func _ c e cursor1 h

/-- C7, amended, on the six bytes `01 02 03 04 05 06`: an `int32_t` at cursor 0
lies inside and is `0x04030201` over any memory; at cursor 4 only two bytes
remain and the cursor ends at `8 > 6`. The handler of `add`, all of whose
parameters are scalars, replies on them. -/
theorem C7_decode_checks_no_bound_witness :
    [1, 2, 3, 4, 5, 6].length < SIZE_MAX_SUCC
    ∧ (read_from_buffer int32_t (Buffer.zero.store [1, 2, 3, 4, 5, 6]) 0
        = read_from_buffer int32_t (Buffer.ones.store [1, 2, 3, 4, 5, 6]) 0
      ∧ (read_from_buffer int32_t (Buffer.zero.store [1, 2, 3, 4, 5, 6]) 0).2
        ≤ [1, 2, 3, 4, 5, 6].length)
    ∧ [1, 2, 3, 4, 5, 6].length
        < (read_from_buffer int32_t (Buffer.zero.store [1, 2, 3, 4, 5, 6]) 4).2
    ∧ read_from_buffer int32_t (Buffer.zero.store [1, 2, 3, 4, 5, 6]) 0 = (67305985, 4)
    ∧ all_scalar [.scalar int32_t, .scalar int32_t]
    ∧ (∃ reply cursor1,
        typed_handler (libstdcxx_vector (2 ^ 20)) .rightToLeft
          [.scalar int32_t, .scalar int32_t] (.scalar int32_t) add
          (Buffer.zero.store [1, 2, 3, 4, 5, 6]) 4 = (.ok reply, cursor1)) :=
  ⟨by decide,
    (C7_decode_checks_no_bound (libstdcxx_vector (2 ^ 20)) int32_t [1, 2, 3, 4, 5, 6]
      Buffer.zero Buffer.ones 0 (by decide)).2.1 (by decide),
    (C7_decode_checks_no_bound (libstdcxx_vector (2 ^ 20)) int32_t [1, 2, 3, 4, 5, 6]
      Buffer.zero Buffer.ones 4 (by decide)).2.2.1 (by decide) (by decide),
    by decide,
    by simp [all_scalar],
    (C7_decode_checks_no_bound (libstdcxx_vector (2 ^ 20)) int32_t [1, 2, 3, 4, 5, 6]
      Buffer.zero Buffer.ones 4 (by decide)).2.2.2.2.1 .rightToLeft
      [.scalar int32_t, .scalar int32_t] (.scalar int32_t) add (by simp [all_scalar])⟩

theorem read_count_of_stored (mem : Buffer) (n : Nat) (rest : List Byte)
    (hn : n < SIZE_MAX_SUCC) :
    read_from_buffer size_t (mem.store (size_t.encode (n : Int) ++ rest)) 0
      = ((n : Int), 8) := by
  have hb := Buffer.bytesAt_store mem [] (size_t.encode (n : Int)) rest
  rw [List.nil_append, size_t.encode_length] at hb
  have h := read_count_of_bytes _ n 0 hn (by rw [SIZE_MAX_SUCC_eq]; norm_num) hb
  rw [h]

/-- C8, as stated, fails: `read_vector_from_buffer` compares the count with no
maximum and has no Unreasonable error. No ceiling stricter than what the vector
constructor itself grants is enforced: whenever the constructor would build a
vector of `maxCount + 1` elements, a count field holding `maxCount + 1` yields
exactly that vector. With libstdc++ and `2^20` bytes to give, the ten bytes
`03 00 00 00 00 00 00 00 01 02` (count 3, two element bytes) yield three
`uint8_t` elements and a message that holds nothing but the count `1000000`
yields a vector of a million elements; the count `2^63` fails, with the
`std::length_error` of the constructor. -/
theorem C8_count_above_any_maximum_accepted :
    (¬ ∃ (alloc : Allocator) (maxCount : Nat), maxCount + 1 < SIZE_MAX_SUCC ∧
        alloc uint8_t (maxCount + 1) = none ∧
        ∀ (buf : Buffer) (off : Nat),
          maxCount < (read_from_buffer size_t buf off).1.toNat →
          ∃ e, (read_vector_from_buffer alloc uint8_t buf off).1 = .error e)
    ∧ read_vector_from_buffer (libstdcxx_vector (2 ^ 20)) uint8_t
        (Buffer.zero.store (size_t.encode 3 ++ [1, 2])) 0 = (.ok [1, 2, 0], 11)
    ∧ (∃ vec cursor1, read_vector_from_buffer (libstdcxx_vector (2 ^ 20)) uint8_t
        (Buffer.zero.store (size_t.encode ((1000000 : Nat) : Int) ++ [])) 0 = (.ok vec, cursor1)
        ∧ vec.length = 1000000)
    ∧ read_vector_from_buffer (libstdcxx_vector (2 ^ 20)) uint8_t
        (Buffer.zero.store (size_t.encode ((2 ^ 63 : Nat) : Int) ++ [])) 0
      = (.error (.length_error "cannot create std::vector larger than max_size()"), 8) := by
  refine ⟨?_, by decide, ?_, ?_⟩
  · rintro ⟨alloc, maxCount, hmax, hgrant, h⟩
    have hcount := read_count_of_stored Buffer.zero (maxCount + 1) [] hmax
    obtain ⟨e, he⟩ := h (Buffer.zero.store (size_t.encode ((maxCount + 1 : Nat) : Int) ++ []))
      0 (by rw [hcount]; simp)
    rw [read_vector_from_buffer_ok alloc uint8_t _ 0 (by rw [hcount]; exact hgrant)] at he
    simp at he
  · have hcount := read_count_of_stored Buffer.zero 1000000 []
      (by rw [SIZE_MAX_SUCC_eq]; norm_num)
    refine ⟨_, _, read_vector_from_buffer_ok (libstdcxx_vector (2 ^ 20)) uint8_t _ 0
      (by rw [hcount]; decide), ?_⟩
    rw [read_elements_length, hcount]
    rfl
  · have hcount := read_count_of_stored Buffer.zero (2 ^ 63) []
      (by rw [SIZE_MAX_SUCC_eq]; norm_num)
    rw [read_vector_from_buffer_throw (libstdcxx_vector (2 ^ 20)) uint8_t _ 0
      (.length_error "cannot create std::vector larger than max_size()")
      (by rw [hcount]; decide), hcount]

/-- C8, amended: `read_vector_from_buffer` has no configured maximum and no
Unreasonable error: it asks the vector constructor for exactly the count the
8-byte field at the cursor holds. When the constructor builds the vector, the
vector has exactly that count, whatever the number and however few bytes the
message holds, and a typed handler with that sequence parameter replies. When
the constructor throws (`std::length_error` above `max_size()`,
`std::bad_alloc` when memory is short), that exception leaves the function with
the cursor behind the count field, and leaves the typed handler. -/
theorem C8_vector_constructor_decides (alloc : Allocator) (order : ArgEvalOrder)
    (T : ScalarTy) (ret : ArgTy) (func : Args [.vector T] → ret.Val) (buf : Buffer)
    (off : Nat) :
    (alloc T (read_from_buffer size_t buf off).1.toNat = none →
      (∃ vec cursor1, read_vector_from_buffer alloc T buf off = (.ok vec, cursor1)
        ∧ vec.length = (read_from_buffer size_t buf off).1.toNat)
      ∧ ∃ reply cursor1,
          typed_handler alloc order [.vector T] ret func buf off = (.ok reply, cursor1))
    ∧ (∀ e, alloc T (read_from_buffer size_t buf off).1.toNat = some e →
      read_vector_from_buffer alloc T buf off
        = (.error e, (read_from_buffer size_t buf off).2)
      ∧ typed_handler alloc order [.vector T] ret func buf off
        = (.error e, (read_from_buffer size_t buf off).2)) := by
  refine ⟨?_, ?_⟩
  · intro halloc
    have hok := read_vector_from_buffer_ok alloc T buf off halloc
    refine ⟨⟨_, _, hok, read_elements_length _ _ _ _⟩, ?_⟩
    cases order with
    | leftToRight =>
      refine ⟨serialize_result ret (call_with_tuple func
          ((read_elements T buf (read_from_buffer size_t buf off).1.toNat
            (read_from_buffer size_t buf off).2).1, ())),
        (read_elements T buf (read_from_buffer size_t buf off).1.toNat
          (read_from_buffer size_t buf off).2).2, ?_⟩
      simp only [typed_handler, read_args_from_buffer, read_args_from_buffer_impl,
        read_single_arg, hok]
    | rightToLeft =>
      refine ⟨serialize_result ret (call_with_tuple func
          ((read_elements T buf (read_from_buffer size_t buf off).1.toNat
            (read_from_buffer size_t buf off).2).1, ())),
        (read_elements T buf (read_from_buffer size_t buf off).1.toNat
          (read_from_buffer size_t buf off).2).2, ?_⟩
      simp only [typed_handler, read_args_from_buffer, read_args_from_buffer_impl,
        read_single_arg, hok]
  · intro e halloc
    have hthrow := read_vector_from_buffer_throw alloc T buf off e halloc
    refine ⟨hthrow, ?_⟩
    cases order with
    | leftToRight =>
      simp only [typed_handler, read_args_from_buffer, read_args_from_buffer_impl,
        read_single_arg, hthrow]
    | rightToLeft =>
      simp only [typed_handler, read_args_from_buffer, read_args_from_buffer_impl,
        read_single_arg, hthrow]

/-- C8, amended, with libstdc++ and `2^20` bytes to give: the count 3 in front of
two element bytes is granted and yields three elements; the count `2^64 - 1`
read behind a message is refused with `std::length_error`. -/
theorem C8_vector_constructor_decides_witness :
    libstdcxx_vector (2 ^ 20) uint8_t
        (read_from_buffer size_t (Buffer.zero.store (size_t.encode 3 ++ [1, 2])) 0).1.toNat
      = none
    ∧ (∃ vec cursor1, read_vector_from_buffer (libstdcxx_vector (2 ^ 20)) uint8_t
          (Buffer.zero.store (size_t.encode 3 ++ [1, 2])) 0 = (.ok vec, cursor1)
        ∧ vec.length
          = (read_from_buffer size_t (Buffer.zero.store (size_t.encode 3 ++ [1, 2])) 0).1.toNat)
    ∧ libstdcxx_vector (2 ^ 20) int32_t
        (read_from_buffer size_t (Buffer.ones.store (uint32_t.encode 2)) 4).1.toNat
      = some (.length_error "cannot create std::vector larger than max_size()")
    ∧ typed_handler (libstdcxx_vector (2 ^ 20)) .leftToRight [.vector int32_t]
        (.scalar int32_t) sum (Buffer.ones.store (uint32_t.encode 2)) 4
      = (.error (.length_error "cannot create std::vector larger than max_size()"),
          (read_from_buffer size_t (Buffer.ones.store (uint32_t.encode 2)) 4).2) :=
  ⟨by decide,
    ((C8_vector_constructor_decides (libstdcxx_vector (2 ^ 20)) .leftToRight uint8_t
      (.scalar int32_t) (fun _ => 0) (Buffer.zero.store (size_t.encode 3 ++ [1, 2])) 0).1
      (by decide)).1,
    by decide,
    ((C8_vector_constructor_decides (libstdcxx_vector (2 ^ 20)) .leftToRight int32_t
      (.scalar int32_t) sum (Buffer.ones.store (uint32_t.encode 2)) 4).2 _ (by decide)).2⟩

/-! ## C10: the request the client writes -/

theorem memcpy_into_spec (buffer raw : List Byte) (offset : Nat)
    (h : offset + raw.length ≤ buffer.length) :
    ∃ b, memcpy_into buffer offset raw = some b ∧ b.length = buffer.length
      ∧ b.take (offset + raw.length) = buffer.take offset ++ raw := by
  refine ⟨buffer.take offset ++ raw ++ buffer.drop (offset + raw.length), ?_, ?_, ?_⟩
  · simp [memcpy_into, h]
  · simp only [List.length_append, List.length_take, List.length_drop]
    omega
  · apply List.take_left'
    simp only [List.length_append, List.length_take]
    omega

theorem append_to_buffer_spec (T : ScalarTy) (buffer : List Byte) (offset : Nat) (v : Int)
    (h : offset + T.size ≤ buffer.length) (hlt : buffer.length < SIZE_MAX_SUCC) :
    ∃ b, ServerConnection.append_to_buffer T buffer offset v = some (b, offset + T.size)
      ∧ b.length = buffer.length
      ∧ b.take (offset + T.size) = buffer.take offset ++ T.encode v := by
  obtain ⟨b, hb, hlen, htake⟩ := memcpy_into_spec buffer (T.encode v) offset
    (by rw [T.encode_length]; exact h)
  rw [T.encode_length] at htake
  refine ⟨b, ?_, hlen, htake⟩
  simp [ServerConnection.append_to_buffer, hb, Nat.mod_eq_of_lt (show offset + T.size
    < SIZE_MAX_SUCC by omega)]

theorem append_elements_spec (T : ScalarTy) (vec : List Int) :
    ∀ (buffer : List Byte) (offset : Nat), offset + vec.length * T.size ≤ buffer.length →
      buffer.length < SIZE_MAX_SUCC →
      ∃ b, ServerConnection.append_elements T vec buffer offset
          = some (b, offset + vec.length * T.size)
        ∧ b.length = buffer.length
        ∧ b.take (offset + vec.length * T.size) = buffer.take offset ++ vec.flatMap T.encode := by
  induction vec with
  | nil =>
    intro buffer offset _ _
    exact ⟨buffer, by simp [ServerConnection.append_elements], rfl, by simp⟩
  | cons x xs ih =>
    intro buffer offset h hlt
    have hk : (x :: xs).length * T.size = T.size + xs.length * T.size := by
      rw [List.length_cons]; ring
    rw [hk] at h ⊢
    obtain ⟨b1, hb1, hlen1, htake1⟩ := append_to_buffer_spec T buffer offset x (by omega) hlt
    obtain ⟨b2, hb2, hlen2, htake2⟩ := ih b1 (offset + T.size) (by omega) (by omega)
    refine ⟨b2, ?_, by omega, ?_⟩
    · simp only [ServerConnection.append_elements, hb1, hb2]
      simp only [Option.some.injEq, Prod.mk.injEq, true_and]
      omega
    · rw [← Nat.add_assoc, htake2, htake1, List.flatMap_cons, List.append_assoc]

theorem append_arg_spec (t : ArgTy) (buffer : List Byte) (offset : Nat) (v : t.Val)
    (h : offset + (encode_arg t [] v).length ≤ buffer.length)
    (hlt : buffer.length < SIZE_MAX_SUCC) :
    ∃ b, ServerConnection.append_arg t buffer offset v
          = some (b, offset + (encode_arg t [] v).length)
      ∧ b.length = buffer.length
      ∧ b.take (offset + (encode_arg t [] v).length)
          = buffer.take offset ++ encode_arg t [] v := by
  cases t with
  | scalar T =>
    simp only [encode_arg, write_to_buffer, List.nil_append, T.encode_length] at h ⊢
    exact append_to_buffer_spec T buffer offset v h hlt
  | vector T =>
    have h8 : (size_t.encode ((List.length (α := Int) v : Nat) : Int)).length = 8 :=
      size_t.encode_length _
    simp only [encode_arg] at h ⊢
    rw [write_vector_to_buffer_eq] at h ⊢
    simp only [List.nil_append, List.length_append, h8, flatMap_encode_length] at h ⊢
    obtain ⟨b1, hb1, hlen1, htake1⟩ := append_to_buffer_spec size_t buffer offset
      ((List.length (α := Int) v : Nat) : Int) (by show offset + 8 ≤ _; omega) hlt
    have hs8 : size_t.size = 8 := rfl
    rw [hs8] at hb1 htake1
    obtain ⟨b2, hb2, hlen2, htake2⟩ := append_elements_spec T v b1 (offset + 8)
      (by omega) (by omega)
    refine ⟨b2, ?_, by omega, ?_⟩
    · simp only [ServerConnection.append_arg, ServerConnection.append_vector_to_buffer,
        hb1, hb2]
      simp only [Option.some.injEq, Prod.mk.injEq, true_and]
      omega
    · rw [← Nat.add_assoc, htake2, htake1, List.append_assoc]

theorem append_args_spec (sig : List ArgTy) :
    ∀ (buffer : List Byte) (offset : Nat) (vs : Args sig),
      offset + (encode_args sig [] vs).length ≤ buffer.length →
      buffer.length < SIZE_MAX_SUCC →
      ∃ b, ServerConnection.append_args sig buffer offset vs
          = some (b, offset + (encode_args sig [] vs).length)
        ∧ b.length = buffer.length
        ∧ b.take (offset + (encode_args sig [] vs).length)
          = buffer.take offset ++ encode_args sig [] vs := by
  induction sig with
  | nil =>
    intro buffer offset vs _ _
    exact ⟨buffer, by simp [ServerConnection.append_args, encode_args], rfl,
      by simp [encode_args]⟩
  | cons t ts ih =>
    intro buffer offset vs h hlt
    obtain ⟨v, vs⟩ := vs
    simp only [encode_args] at h ⊢
    rw [encode_args_eq ts (encode_arg t [] v) vs, List.length_append] at h ⊢
    obtain ⟨b1, hb1, hlen1, htake1⟩ := append_arg_spec t buffer offset v (by omega) hlt
    obtain ⟨b2, hb2, hlen2, htake2⟩ := ih b1 (offset + (encode_arg t [] v).length) vs
      (by omega) (by omega)
    refine ⟨b2, ?_, by omega, ?_⟩
    · simp only [ServerConnection.append_args, hb1, hb2]
      simp only [Option.some.injEq, Prod.mk.injEq, true_and]
      omega
    · rw [← Nat.add_assoc, htake2, htake1, List.append_assoc]

/-! The array is exactly as large as the bound: a longer request overruns it. -/

theorem append_to_buffer_overrun (T : ScalarTy) (buffer : List Byte) (offset : Nat) (v : Int)
    (h : buffer.length < offset + T.size) :
    ServerConnection.append_to_buffer T buffer offset v = none := by
  have : ¬ offset + (T.encode v).length ≤ buffer.length := by
    rw [T.encode_length]; omega
  simp [ServerConnection.append_to_buffer, memcpy_into, this]

theorem append_elements_overrun (T : ScalarTy) (vec : List Int) :
    ∀ (buffer : List Byte) (offset : Nat), offset ≤ buffer.length →
      buffer.length < SIZE_MAX_SUCC → buffer.length < offset + vec.length * T.size →
      ServerConnection.append_elements T vec buffer offset = none := by
  induction vec with
  | nil => intro buffer offset h1 _ h2; simp at h2; omega
  | cons x xs ih =>
    intro buffer offset h1 hlt h2
    have hk : (x :: xs).length * T.size = T.size + xs.length * T.size := by
      rw [List.length_cons]; ring
    rw [hk] at h2
    by_cases hx : offset + T.size ≤ buffer.length
    · obtain ⟨b1, hb1, hlen1, -⟩ := append_to_buffer_spec T buffer offset x hx hlt
      simp only [ServerConnection.append_elements, hb1]
      exact ih b1 (offset + T.size) (by omega) (by omega) (by omega)
    · simp only [ServerConnection.append_elements,
        append_to_buffer_overrun T buffer offset x (by omega)]

theorem append_arg_overrun (t : ArgTy) (buffer : List Byte) (offset : Nat) (v : t.Val)
    (h1 : offset ≤ buffer.length) (hlt : buffer.length < SIZE_MAX_SUCC)
    (h2 : buffer.length < offset + (encode_arg t [] v).length) :
    ServerConnection.append_arg t buffer offset v = none := by
  cases t with
  | scalar T =>
    simp only [encode_arg, write_to_buffer, List.nil_append, T.encode_length] at h2
    exact append_to_buffer_overrun T buffer offset v h2
  | vector T =>
    have h8 : (size_t.encode ((List.length (α := Int) v : Nat) : Int)).length = 8 :=
      size_t.encode_length _
    have hs8 : size_t.size = 8 := rfl
    simp only [encode_arg] at h2
    rw [write_vector_to_buffer_eq] at h2
    simp only [List.nil_append, List.length_append, h8, flatMap_encode_length] at h2
    by_cases hx : offset + 8 ≤ buffer.length
    · obtain ⟨b1, hb1, hlen1, -⟩ := append_to_buffer_spec size_t buffer offset
        ((List.length (α := Int) v : Nat) : Int) (by rw [hs8]; exact hx) hlt
      rw [hs8] at hb1
      simp only [ServerConnection.append_arg, ServerConnection.append_vector_to_buffer, hb1]
      exact append_elements_overrun T v b1 (offset + 8) (by omega) (by omega) (by omega)
    · simp only [ServerConnection.append_arg, ServerConnection.append_vector_to_buffer,
        append_to_buffer_overrun size_t buffer offset _ (by rw [hs8]; omega)]

theorem append_args_overrun (sig : List ArgTy) :
    ∀ (buffer : List Byte) (offset : Nat) (vs : Args sig), offset ≤ buffer.length →
      buffer.length < SIZE_MAX_SUCC →
      buffer.length < offset + (encode_args sig [] vs).length →
      ServerConnection.append_args sig buffer offset vs = none := by
  induction sig with
  | nil => intro buffer offset vs h1 _ h2; simp [encode_args] at h2; omega
  | cons t ts ih =>
    intro buffer offset vs h1 hlt h2
    obtain ⟨v, vs⟩ := vs
    simp only [encode_args] at h2
    rw [encode_args_eq ts (encode_arg t [] v) vs, List.length_append] at h2
    by_cases hx : offset + (encode_arg t [] v).length ≤ buffer.length
    · obtain ⟨b1, hb1, hlen1, -⟩ := append_arg_spec t buffer offset v hx hlt
      simp only [ServerConnection.append_args, hb1]
      exact ih b1 _ vs (by omega) (by omega) (by omega)
    · simp only [ServerConnection.append_args,
        append_arg_overrun t buffer offset v h1 hlt (by omega)]

theorem uint32_t_inRange (n : Nat) (h : n < 2 ^ 32) : uint32_t.InRange (n : Int) := by
  unfold ScalarTy.InRange ScalarTy.card
  simp only [uint32_t, Bool.false_eq_true, if_false]
  norm_num at h ⊢
  omega

theorem request_encoding_eq (func_id : Nat) (sig : List ArgTy) (args : Args sig) :
    request_encoding func_id sig args
      = uint32_t.encode (func_id : Int) ++ encode_args sig [] args := by
  unfold request_encoding
  rw [encode_args_eq, write_to_buffer, List.nil_append]

/-- A request longer than the 2048 bytes of the client's array makes a `memcpy`
of `send` write past the array: undefined behaviour, no request is defined. -/
theorem send_request_overrun (func_id : Nat) (sig : List ArgTy) (args : Args sig)
    (h : ServerConnection.BUFFER_SIZE < (request_encoding func_id sig args).length) :
    ServerConnection.send_request func_id sig args = none := by
  have h4 : (uint32_t.encode (func_id : Int)).length = 4 := uint32_t.encode_length _
  have hs4 : uint32_t.size = 4 := rfl
  have hcap : ServerConnection.BUFFER_SIZE = 2048 := rfl
  have hbig : (2048 : Nat) < SIZE_MAX_SUCC := by rw [SIZE_MAX_SUCC_eq]; norm_num
  rw [request_encoding_eq, List.length_append, h4, hcap] at h
  obtain ⟨b1, hb1, hlen1, -⟩ := append_to_buffer_spec uint32_t
    (List.replicate ServerConnection.BUFFER_SIZE 0) 0 (func_id : Int)
    (by rw [List.length_replicate, hs4, hcap]; omega)
    (by rw [List.length_replicate, hcap]; exact hbig)
  rw [List.length_replicate, hcap] at hlen1
  rw [hs4] at hb1
  unfold ServerConnection.send_request
  rw [hb1]
  simp only []
  rw [append_args_overrun sig b1 (0 + 4) args (by omega) (by omega) (by omega)]

/-- C10, as stated, fails at its bound: an argument list whose encoding is at
most 2048 bytes need not fit the client's 2048-byte array, which holds the
4-byte id as well. For the single argument `std::vector<int>(510)` the argument
list takes exactly 2048 bytes, the request 2052, and `send` copies past the end
of `char buffer[2048]`: no request is defined. Nor does the server recover the
arguments in whichever order it evaluates its reads: read right to left, the
request of `(5, 3)` is decoded as `(3, 5)`. -/
theorem C10_argument_list_of_2048_bytes_overruns :
    (encode_args [.vector int32_t] [] (List.replicate 510 0, ())).length = 2048
    ∧ (encode_args [.vector int32_t] [] (List.replicate 510 0, ())).length
        ≤ ServerConnection.BUFFER_SIZE
    ∧ (request_encoding 1 [.vector int32_t] (List.replicate 510 0, ())).length = 2052
    ∧ ServerConnection.send_request 1 [.vector int32_t] (List.replicate 510 0, ()) = none
    ∧ read_args_from_buffer_impl (libstdcxx_vector (2 ^ 20)) .rightToLeft
        [.scalar int32_t, .scalar int32_t]
        (Buffer.zero.store (request_encoding 1 [.scalar int32_t, .scalar int32_t] (5, 3, ()))) 4
      = (.ok (3, 5, ()), 12) := by
  have h8 : (size_t.encode (((List.replicate 510 (0 : Int)).length : Nat) : Int)).length = 8 :=
    size_t.encode_length _
  have h4 : (uint32_t.encode ((1 : Nat) : Int)).length = 4 := uint32_t.encode_length _
  have hargs : (encode_args [.vector int32_t] [] (List.replicate 510 0, ())).length = 2048 := by
    simp only [encode_args, encode_arg]
    rw [write_vector_to_buffer_eq, List.length_append, List.length_append, h8,
      flatMap_encode_length, List.length_replicate]
    rfl
  have hreq : (request_encoding 1 [.vector int32_t] (List.replicate 510 0, ())).length
      = 2052 := by
    rw [request_encoding_eq, List.length_append, h4, hargs]
  refine ⟨hargs, ?_, hreq, ?_, by decide⟩
  · rw [hargs]; decide
  · exact send_request_overrun 1 [.vector int32_t] (List.replicate 510 0, ())
      (by rw [hreq]; decide)

/-- C10, amended: for every function id and every argument list of scalars and
sequences of scalars whose request, the 4-byte id and the encodings of the
arguments together, is at most the 2048 bytes of the client's array, the bytes
`ServerConnection::send` hands to the socket are exactly the request of the
wire format: the 4-byte id followed, in argument order, by what
`write_to_buffer` produces for a scalar and `write_vector_to_buffer` for a
sequence. Consequently, on a buffer that starts with these bytes, the server's
`read_from_buffer<uint32_t>` at 0 recovers the id, and `read_single_arg` applied
to each declared parameter in declared order, one after the other from cursor
4, recovers every argument (the server being able to construct its vectors) and
ends at the end of the request. -/
theorem C10_client_request_matches_server_encoding (alloc : Allocator) (func_id : Nat)
    (sig : List ArgTy) (args : Args sig) (mem : Buffer) (hid : func_id < 2 ^ 32)
    (hv : Args.InRange sig args)
    (hfit : (request_encoding func_id sig args).length ≤ ServerConnection.BUFFER_SIZE)
    (halloc : Args.Constructible alloc sig args) :
    ServerConnection.send_request func_id sig args = some (request_encoding func_id sig args)
    ∧ read_from_buffer uint32_t (mem.store (request_encoding func_id sig args)) 0
        = ((func_id : Int), 4)
    ∧ read_args_from_buffer_impl alloc .leftToRight sig
        (mem.store (request_encoding func_id sig args)) 4
        = (.ok args, (request_encoding func_id sig args).length) := by
  have h4 : (uint32_t.encode (func_id : Int)).length = 4 := uint32_t.encode_length _
  have hs4 : uint32_t.size = 4 := rfl
  have hcap : ServerConnection.BUFFER_SIZE = 2048 := rfl
  rw [request_encoding_eq] at hfit ⊢
  rw [List.length_append, h4, hcap] at hfit
  have hbig : (2048 : Nat) < SIZE_MAX_SUCC := by rw [SIZE_MAX_SUCC_eq]; norm_num
  refine ⟨?_, ?_, ?_⟩
  · obtain ⟨b1, hb1, hlen1, htake1⟩ := append_to_buffer_spec uint32_t
      (List.replicate ServerConnection.BUFFER_SIZE 0) 0 (func_id : Int)
      (by rw [List.length_replicate, hs4, hcap]; omega)
      (by rw [List.length_replicate, hcap]; exact hbig)
    rw [List.length_replicate, hcap] at hlen1
    rw [hs4] at hb1 htake1
    obtain ⟨b2, hb2, hlen2, htake2⟩ := append_args_spec sig b1 (0 + 4) args
      (by omega) (by omega)
    rw [htake1, List.take_zero, List.nil_append] at htake2
    unfold ServerConnection.send_request
    rw [hb1]
    simp only []
    rw [hb2]
    simp only []
    rw [htake2]
  · have hb := Buffer.bytesAt_store mem [] (uint32_t.encode (func_id : Int))
      (encode_args sig [] args)
    rw [List.nil_append, h4] at hb
    have := read_from_buffer_of_bytes uint32_t
      (mem.store (uint32_t.encode (func_id : Int) ++ encode_args sig [] args)) 0
      (func_id : Int) (uint32_t_inRange func_id hid) (by rw [hs4]; exact hb)
    rw [this, hs4]
    rfl
  · have hb := Buffer.bytesAt_store mem (uint32_t.encode (func_id : Int))
      (encode_args sig [] args) []
    rw [List.append_nil, h4] at hb
    rw [read_args_leftToRight_of_bytes alloc sig _ 4 args hv (by omega) hb halloc,
      List.length_append, h4]

/-- C10, amended, for `send<int>(1, 2, std::vector<int>{1, 2, 3})`: 28 request
bytes. -/
theorem C10_client_request_matches_server_encoding_witness :
    (1 : Nat) < 2 ^ 32
    ∧ (request_encoding 1 [.scalar int32_t, .vector int32_t] (2, [1, 2, 3], ())).length
        ≤ ServerConnection.BUFFER_SIZE
    ∧ (ServerConnection.send_request 1 [.scalar int32_t, .vector int32_t] (2, [1, 2, 3], ())
        = some (request_encoding 1 [.scalar int32_t, .vector int32_t] (2, [1, 2, 3], ()))
      ∧ read_from_buffer uint32_t (Buffer.ones.store
          (request_encoding 1 [.scalar int32_t, .vector int32_t] (2, [1, 2, 3], ()))) 0
        = (((1 : Nat) : Int), 4)
      ∧ read_args_from_buffer_impl (libstdcxx_vector (2 ^ 20)) .leftToRight
          [.scalar int32_t, .vector int32_t]
          (Buffer.ones.store
            (request_encoding 1 [.scalar int32_t, .vector int32_t] (2, [1, 2, 3], ()))) 4
        = (.ok (2, [1, 2, 3], ()),
          (request_encoding 1 [.scalar int32_t, .vector int32_t] (2, [1, 2, 3], ())).length))
    ∧ request_encoding 1 [.scalar int32_t, .vector int32_t] (2, [1, 2, 3], ())
        = [1, 0, 0, 0, 2, 0, 0, 0, 3, 0, 0, 0, 0, 0, 0, 0,
           1, 0, 0, 0, 2, 0, 0, 0, 3, 0, 0, 0] :=
  ⟨by decide, by decide,
    C10_client_request_matches_server_encoding (libstdcxx_vector (2 ^ 20)) 1
      [.scalar int32_t, .vector int32_t]
      (2, [1, 2, 3], ()) Buffer.ones (by decide)
      ⟨show int32_t.InRange 2 by decide,
        show ∀ v ∈ [1, 2, 3], int32_t.InRange v by decide, trivial⟩ (by decide)
      ⟨trivial, show libstdcxx_vector (2 ^ 20) int32_t 3 = none by decide, trivial⟩,
    by decide⟩

/-! ## C16, C17: what the encoders append, how far the decoders move -/

/-- C16: for every scalar type `T`, output buffer `b`, value `v` and sequence
`s`: `write_to_buffer(b, v)` is `b` followed by exactly `sizeof(T)` bytes, with
`b` an unchanged prefix, and `write_vector_to_buffer(b, s)` is `b` followed by
the 8-byte encoding of `|s|` and then the encodings of the elements of `s` in
order, so that it adds `8 + |s| * sizeof(T)` bytes; the 8 bytes decode to `|s|`
for every length a `size_t` holds. -/
theorem C16_encoders_append (T : ScalarTy) (b : List Byte) (v : Int) (s : List Int) :
    write_to_buffer T b v = b ++ T.encode v
    ∧ (T.encode v).length = T.size
    ∧ (write_to_buffer T b v).take b.length = b
    ∧ (write_to_buffer T b v).length = b.length + T.size
    ∧ write_vector_to_buffer T b s
        = b ++ size_t.encode (s.length : Int) ++ (s.map T.encode).flatten
    ∧ (size_t.encode (s.length : Int)).length = 8
    ∧ (write_vector_to_buffer T b s).take b.length = b
    ∧ (write_vector_to_buffer T b s).length = b.length + (8 + s.length * T.size)
    ∧ (s.length < SIZE_MAX_SUCC → size_t.decode (size_t.encode (s.length : Int)) = s.length) := by
  have h8 : (size_t.encode (s.length : Int)).length = 8 := size_t.encode_length _
  have hvec := write_vector_to_buffer_eq T b s
  refine ⟨rfl, T.encode_length v, ?_, ?_, ?_, h8, ?_, ?_, ?_⟩
  · exact List.take_left' rfl
  · rw [write_to_buffer, List.length_append, T.encode_length]
  · rw [hvec, List.flatMap_def]
  · rw [hvec, List.append_assoc]
    exact List.take_left' rfl
  · rw [hvec, List.length_append, List.length_append, h8, flatMap_encode_length]
    omega
  · intro hlen
    exact size_t.decode_encode _ (size_t_inRange _ hlen)

/-- C16 for `int32_t`, the buffer `07`, the value `-2` and the sequence
`[1, -2, 3]`: four bytes, respectively `8 + 3 * 4` bytes, are added. -/
theorem C16_encoders_append_witness :
    [1, -2, 3].length < SIZE_MAX_SUCC
    ∧ size_t.decode (size_t.encode (([1, -2, 3] : List Int).length : Int))
        = ([1, -2, 3] : List Int).length
    ∧ write_to_buffer int32_t [7] (-2) = [7, 254, 255, 255, 255]
    ∧ write_vector_to_buffer int32_t [7] [1, -2, 3]
        = [7, 3, 0, 0, 0, 0, 0, 0, 0, 1, 0, 0, 0, 254, 255, 255, 255, 3, 0, 0, 0] :=
  ⟨by decide,
    (C16_encoders_append int32_t [7] (-2) [1, -2, 3]).2.2.2.2.2.2.2.2 (by decide),
    by decide, by decide⟩

theorem read_single_arg_snd (alloc : Allocator) (t : ArgTy) (buf : Buffer) (c : Nat)
    (h : c + t.consumed alloc buf c < SIZE_MAX_SUCC) :
    (read_single_arg alloc t buf c).2 = c + t.consumed alloc buf c := by
  cases t with
  | scalar T =>
    simp only [read_single_arg, ArgTy.consumed] at h ⊢
    rw [read_from_buffer_snd, Nat.mod_eq_of_lt h]
  | vector T =>
    simp only [read_single_arg, ArgTy.consumed] at h ⊢
    cases halloc : alloc T (read_from_buffer size_t buf c).1.toNat with
    | none =>
      rw [halloc] at h
      simp only [] at h ⊢
      rw [read_vector_from_buffer_snd_ok alloc T buf c halloc (by omega)]
      simp only []
      omega
    | some e =>
      rw [halloc] at h
      simp only [] at h ⊢
      rw [read_vector_from_buffer_snd_throw alloc T buf c e halloc h]

/-- A read of one parameter that returns has consumed the encoded size of the
value it returns. -/
theorem read_single_arg_ok_consumed (alloc : Allocator) (t : ArgTy) (buf : Buffer) (c : Nat)
    (v : t.Val) (o : Nat) (hr : read_single_arg alloc t buf c = (.ok v, o)) :
    t.consumed alloc buf c = t.encoded_size v := by
  cases t with
  | scalar T => rfl
  | vector T =>
    simp only [read_single_arg] at hr
    simp only [ArgTy.consumed, ArgTy.encoded_size]
    cases halloc : alloc T (read_from_buffer size_t buf c).1.toNat with
    | none =>
      rw [read_vector_from_buffer_ok alloc T buf c halloc] at hr
      simp only [Prod.mk.injEq, Except.ok.injEq] at hr
      rw [← hr.1, read_elements_length]
    | some e =>
      rw [read_vector_from_buffer_throw alloc T buf c e halloc] at hr
      simp at hr

/-- In either evaluation order the reads of a tuple leave the cursor behind the
bytes they consumed. -/
theorem read_args_snd (alloc : Allocator) (order : ArgEvalOrder) (sig : List ArgTy)
    (buf : Buffer) :
    ∀ c, c + Args.consumed alloc order sig buf c < SIZE_MAX_SUCC →
      (read_args_from_buffer_impl alloc order sig buf c).2
        = c + Args.consumed alloc order sig buf c := by
  induction sig with
  | nil => intro c _; simp [read_args_from_buffer_impl, Args.consumed]
  | cons t ts ih =>
    intro c h
    cases order with
    | leftToRight =>
      rw [read_args_leftToRight_cons]
      simp only [Args.consumed] at h ⊢
      rcases hr : read_single_arg alloc t buf c with ⟨r, o1⟩
      rw [hr] at h
      cases r with
      | error e =>
        simp only [] at h ⊢
        have h1 := read_single_arg_snd alloc t buf c h
        rw [hr] at h1
        exact h1
      | ok v =>
        simp only [] at h ⊢
        have h1 := read_single_arg_snd alloc t buf c (by omega)
        rw [hr] at h1
        simp only [] at h1
        have h2 := ih o1 (by omega)
        rcases hr2 : read_args_from_buffer_impl alloc .leftToRight ts buf o1 with ⟨r2, o2⟩
        rw [hr2] at h2
        simp only [] at h2
        cases r2 <;> simp only [] <;> omega
    | rightToLeft =>
      rw [read_args_rightToLeft_cons]
      simp only [Args.consumed] at h ⊢
      rcases hr : read_args_from_buffer_impl alloc .rightToLeft ts buf c with ⟨r, o1⟩
      rw [hr] at h
      cases r with
      | error e =>
        simp only [] at h ⊢
        have h1 := ih c h
        rw [hr] at h1
        exact h1
      | ok vs =>
        simp only [] at h ⊢
        have h1 := ih c (by omega)
        rw [hr] at h1
        simp only [] at h1
        have h2 := read_single_arg_snd alloc t buf o1 (by omega)
        rcases hr2 : read_single_arg alloc t buf o1 with ⟨r2, o2⟩
        rw [hr2] at h2
        simp only [] at h2
        cases r2 <;> simp only [] <;> omega

/-- Reads of a tuple that all return have consumed the sum of the encoded sizes
of the arguments they return. -/
theorem read_args_ok_consumed (alloc : Allocator) (order : ArgEvalOrder) (sig : List ArgTy)
    (buf : Buffer) :
    ∀ (c : Nat) (args : Args sig) (o : Nat),
      read_args_from_buffer_impl alloc order sig buf c = (.ok args, o) →
      Args.consumed alloc order sig buf c = Args.encoded_size sig args := by
  induction sig with
  | nil => intro c args o _; rfl
  | cons t ts ih =>
    intro c args o h
    obtain ⟨v, vs⟩ := args
    cases order with
    | leftToRight =>
      rw [read_args_leftToRight_cons] at h
      simp only [Args.consumed, Args.encoded_size]
      rcases hr : read_single_arg alloc t buf c with ⟨r, o1⟩
      rw [hr] at h
      cases r with
      | error e => simp at h
      | ok v1 =>
        simp only [] at h ⊢
        rcases hr2 : read_args_from_buffer_impl alloc .leftToRight ts buf o1 with ⟨r2, o2⟩
        rw [hr2] at h
        cases r2 with
        | error e => simp at h
        | ok vs1 =>
          simp only [Prod.mk.injEq, Except.ok.injEq] at h
          obtain ⟨⟨hv, hvs⟩, _⟩ := h
          subst hv; subst hvs
          rw [read_single_arg_ok_consumed alloc t buf c v1 o1 hr, ih o1 vs1 o2 hr2]
    | rightToLeft =>
      rw [read_args_rightToLeft_cons] at h
      simp only [Args.consumed, Args.encoded_size]
      rcases hr : read_args_from_buffer_impl alloc .rightToLeft ts buf c with ⟨r, o1⟩
      rw [hr] at h
      cases r with
      | error e => simp at h
      | ok vs1 =>
        simp only [] at h ⊢
        rcases hr2 : read_single_arg alloc t buf o1 with ⟨r2, o2⟩
        rw [hr2] at h
        cases r2 with
        | error e => simp at h
        | ok v1 =>
          simp only [Prod.mk.injEq, Except.ok.injEq] at h
          obtain ⟨⟨hv, hvs⟩, _⟩ := h
          subst hv; subst hvs
          rw [read_single_arg_ok_consumed alloc t buf o1 v1 o2 hr2, ih c vs1 o1 hr]
          omega

/-- A typed handler leaves the cursor where its argument reads left it. -/
theorem typed_handler_snd (alloc : Allocator) (order : ArgEvalOrder) (sig : List ArgTy)
    (ret : ArgTy) (func : Args sig → ret.Val) (buf : Buffer) (c : Nat) :
    (typed_handler alloc order sig ret func buf c).2
      = (read_args_from_buffer alloc order sig buf c).2 := by
  simp only [typed_handler]
  rcases hr : read_args_from_buffer alloc order sig buf c with ⟨r, o⟩
  cases r <;> rfl

/-- C17, as stated, fails for a sequence the server cannot build:
`read_vector_from_buffer<uint8_t>` on a count field holding `2^63` at cursor 0
satisfies the proviso (`0 + 8 + 2^63 * 1 < 2^64`), yet with libstdc++ the vector
constructor throws `std::length_error` and the cursor is left at 8, behind the
count field, not at `8 + 2^63`; a typed handler with that one parameter leaves
it at 8 as well and decodes no parameter. -/
theorem C17_cursor_behind_count_when_constructor_throws :
    (read_from_buffer size_t
        (Buffer.zero.store (size_t.encode ((2 ^ 63 : Nat) : Int) ++ [])) 0).1.toNat = 2 ^ 63
    ∧ 0 + 8 + (read_from_buffer size_t
        (Buffer.zero.store (size_t.encode ((2 ^ 63 : Nat) : Int) ++ [])) 0).1.toNat
          * uint8_t.size < SIZE_MAX_SUCC
    ∧ read_vector_from_buffer (libstdcxx_vector (2 ^ 20)) uint8_t
        (Buffer.zero.store (size_t.encode ((2 ^ 63 : Nat) : Int) ++ [])) 0
      = (.error (.length_error "cannot create std::vector larger than max_size()"), 8)
    ∧ (read_vector_from_buffer (libstdcxx_vector (2 ^ 20)) uint8_t
        (Buffer.zero.store (size_t.encode ((2 ^ 63 : Nat) : Int) ++ [])) 0).2
      ≠ 0 + 8 + (read_from_buffer size_t
        (Buffer.zero.store (size_t.encode ((2 ^ 63 : Nat) : Int) ++ [])) 0).1.toNat
          * uint8_t.size
    ∧ ∀ order, typed_handler (libstdcxx_vector (2 ^ 20)) order [.vector uint8_t]
        (.scalar int32_t) (fun _ => 0)
        (Buffer.zero.store (size_t.encode ((2 ^ 63 : Nat) : Int) ++ [])) 0
      = (.error (.length_error "cannot create std::vector larger than max_size()"), 8) := by
  have hcount := read_count_of_stored Buffer.zero (2 ^ 63) []
    (by rw [SIZE_MAX_SUCC_eq]; norm_num)
  have hthrow : read_vector_from_buffer (libstdcxx_vector (2 ^ 20)) uint8_t
      (Buffer.zero.store (size_t.encode ((2 ^ 63 : Nat) : Int) ++ [])) 0
      = (.error (.length_error "cannot create std::vector larger than max_size()"), 8) := by
    rw [read_vector_from_buffer_throw (libstdcxx_vector (2 ^ 20)) uint8_t _ 0
      (.length_error "cannot create std::vector larger than max_size()")
      (by rw [hcount]; decide), hcount]
  refine ⟨by rw [hcount]; rfl, ?_, hthrow, ?_, ?_⟩
  · rw [hcount, SIZE_MAX_SUCC_eq]
    decide
  · rw [hthrow, hcount]
    decide
  · intro order
    cases order <;>
      simp only [typed_handler, read_args_from_buffer, read_args_from_buffer_impl,
        read_single_arg, hthrow]

/-- C17, amended: every decode operation only moves the cursor forward. For every
buffer and cursor `c`, as long as `c` plus the bytes consumed stays below
`2^64`: `read_from_buffer<T>` leaves the cursor at `c + sizeof(T)`;
`read_vector_from_buffer<T>`, `n` being the count it read, leaves it at
`c + 8 + n * sizeof(T)` with `n` elements built when the vector constructor
builds the vector, and at `c + 8`, behind the count field, when the constructor
throws; a typed handler, in whichever order its argument reads are evaluated,
leaves it at `c` plus the bytes its reads consumed, which is the sum of the
encoded sizes of the arguments it decoded when all its reads return. None of
them leaves the cursor below `c`. -/
theorem C17_cursor_moves_forward (alloc : Allocator) (order : ArgEvalOrder) (T : ScalarTy)
    (sig : List ArgTy) (ret : ArgTy) (func : Args sig → ret.Val) (buf : Buffer) (c : Nat) :
    (c + T.size < SIZE_MAX_SUCC →
      (read_from_buffer T buf c).2 = c + T.size ∧ c ≤ (read_from_buffer T buf c).2)
    ∧ (alloc T (read_from_buffer size_t buf c).1.toNat = none →
      c + 8 + (read_from_buffer size_t buf c).1.toNat * T.size < SIZE_MAX_SUCC →
      (∃ vec, read_vector_from_buffer alloc T buf c
          = (.ok vec, c + 8 + (read_from_buffer size_t buf c).1.toNat * T.size)
        ∧ vec.length = (read_from_buffer size_t buf c).1.toNat)
      ∧ c ≤ (read_vector_from_buffer alloc T buf c).2)
    ∧ (∀ e, alloc T (read_from_buffer size_t buf c).1.toNat = some e →
      c + 8 < SIZE_MAX_SUCC →
      read_vector_from_buffer alloc T buf c = (.error e, c + 8)
      ∧ c ≤ (read_vector_from_buffer alloc T buf c).2)
    ∧ (c + Args.consumed alloc order sig buf c < SIZE_MAX_SUCC →
      (typed_handler alloc order sig ret func buf c).2
          = c + Args.consumed alloc order sig buf c
      ∧ c ≤ (typed_handler alloc order sig ret func buf c).2)
    ∧ (∀ args o, read_args_from_buffer alloc order sig buf c = (.ok args, o) →
      Args.consumed alloc order sig buf c = Args.encoded_size sig args
      ∧ (c + Args.encoded_size sig args < SIZE_MAX_SUCC →
        (typed_handler alloc order sig ret func buf c).2
          = c + Args.encoded_size sig args)) := by
  refine ⟨?_, ?_, ?_, ?_, ?_⟩
  · intro h
    rw [read_from_buffer_snd, Nat.mod_eq_of_lt h]
    exact ⟨rfl, Nat.le_add_right _ _⟩
  · intro halloc h
    rw [read_vector_from_buffer_snd_ok alloc T buf c halloc h]
    exact ⟨⟨_, rfl, read_elements_length _ _ _ _⟩, by omega⟩
  · intro e halloc h
    rw [read_vector_from_buffer_snd_throw alloc T buf c e halloc h]
    exact ⟨rfl, by omega⟩
  · intro h
    rw [typed_handler_snd]
    simp only [read_args_from_buffer]
    rw [read_args_snd alloc order sig buf c h]
    exact ⟨rfl, Nat.le_add_right _ _⟩
  · intro args o hr
    simp only [read_args_from_buffer] at hr
    have hc := read_args_ok_consumed alloc order sig buf c args o hr
    refine ⟨hc, ?_⟩
    intro h
    rw [typed_handler_snd]
    simp only [read_args_from_buffer]
    rw [read_args_snd alloc order sig buf c (by rw [hc]; exact h), hc]

/-- C17, amended, on the request `3, 2, [1, 2, 3]` of a
`(int32_t, std::vector<int32_t>)` handler: the scalar read moves the cursor
from 4 to 8, the sequence read from 8 to 28, the handler from 4 to 28. Read
right to left, the same request has its sequence decoded first, from the bytes
of the scalar: the constructor throws on the count found there and the handler
leaves the cursor at 12, behind the 8 bytes of that count. -/
theorem C17_cursor_moves_forward_witness :
    (4 + int32_t.size < SIZE_MAX_SUCC
      ∧ (read_from_buffer int32_t (Buffer.ones.store
          (request_encoding 3 [.scalar int32_t, .vector int32_t] (2, [1, 2, 3], ()))) 4).2
        = 4 + int32_t.size)
    ∧ (libstdcxx_vector (2 ^ 20) int32_t (read_from_buffer size_t (Buffer.ones.store
          (request_encoding 3 [.scalar int32_t, .vector int32_t] (2, [1, 2, 3], ()))) 8).1.toNat
        = none
      ∧ 8 + 8 + (read_from_buffer size_t (Buffer.ones.store
          (request_encoding 3 [.scalar int32_t, .vector int32_t] (2, [1, 2, 3], ()))) 8).1.toNat
            * int32_t.size < SIZE_MAX_SUCC
      ∧ 8 ≤ (read_vector_from_buffer (libstdcxx_vector (2 ^ 20)) int32_t (Buffer.ones.store
          (request_encoding 3 [.scalar int32_t, .vector int32_t] (2, [1, 2, 3], ()))) 8).2)
    ∧ (4 + Args.consumed (libstdcxx_vector (2 ^ 20)) .leftToRight
          [.scalar int32_t, .vector int32_t] (Buffer.ones.store
          (request_encoding 3 [.scalar int32_t, .vector int32_t] (2, [1, 2, 3], ()))) 4
        < SIZE_MAX_SUCC
      ∧ (typed_handler (libstdcxx_vector (2 ^ 20)) .leftToRight
          [.scalar int32_t, .vector int32_t] (.scalar int32_t)
          scaled_sum (Buffer.ones.store
          (request_encoding 3 [.scalar int32_t, .vector int32_t] (2, [1, 2, 3], ()))) 4).2
        = 4 + Args.consumed (libstdcxx_vector (2 ^ 20)) .leftToRight
          [.scalar int32_t, .vector int32_t] (Buffer.ones.store
          (request_encoding 3 [.scalar int32_t, .vector int32_t] (2, [1, 2, 3], ()))) 4)
    ∧ (typed_handler (libstdcxx_vector (2 ^ 20)) .leftToRight
          [.scalar int32_t, .vector int32_t] (.scalar int32_t)
          scaled_sum (Buffer.ones.store
          (request_encoding 3 [.scalar int32_t, .vector int32_t] (2, [1, 2, 3], ()))) 4).2 = 28
    ∧ read_vector_from_buffer (libstdcxx_vector (2 ^ 20)) int32_t (Buffer.ones.store
          (request_encoding 3 [.scalar int32_t, .vector int32_t] (2, [1, 2, 3], ()))) 8
        = (.ok [1, 2, 3], 28)
    ∧ typed_handler (libstdcxx_vector (2 ^ 20)) .rightToLeft
          [.scalar int32_t, .vector int32_t] (.scalar int32_t)
          scaled_sum (Buffer.ones.store
          (request_encoding 3 [.scalar int32_t, .vector int32_t] (2, [1, 2, 3], ()))) 4
        = (.error .bad_alloc, 12)
    ∧ Args.consumed (libstdcxx_vector (2 ^ 20)) .rightToLeft
          [.scalar int32_t, .vector int32_t] (Buffer.ones.store
          (request_encoding 3 [.scalar int32_t, .vector int32_t] (2, [1, 2, 3], ()))) 4
        = 8 :=
  ⟨⟨by decide,
      ((C17_cursor_moves_forward (libstdcxx_vector (2 ^ 20)) .leftToRight int32_t
        [.scalar int32_t, .vector int32_t]
        (.scalar int32_t) scaled_sum (Buffer.ones.store
          (request_encoding 3 [.scalar int32_t, .vector int32_t] (2, [1, 2, 3], ()))) 4).1
        (by decide)).1⟩,
    ⟨by decide, by decide,
      ((C17_cursor_moves_forward (libstdcxx_vector (2 ^ 20)) .leftToRight int32_t
        [.scalar int32_t, .vector int32_t]
        (.scalar int32_t) scaled_sum (Buffer.ones.store
          (request_encoding 3 [.scalar int32_t, .vector int32_t] (2, [1, 2, 3], ()))) 8).2.1
        (by decide) (by decide)).2⟩,
    ⟨by decide,
      ((C17_cursor_moves_forward (libstdcxx_vector (2 ^ 20)) .leftToRight int32_t
        [.scalar int32_t, .vector int32_t]
        (.scalar int32_t) scaled_sum (Buffer.ones.store
          (request_encoding 3 [.scalar int32_t, .vector int32_t] (2, [1, 2, 3], ()))) 4).2.2.2.1
        (by decide)).1⟩,
    by decide, by decide, by decide, by decide⟩

/-! ## C11, C15: the reply the client reads -/

theorem natLE_replicate_zero (n : Nat) : natLE (List.replicate n (0 : Byte)) = 0 := by
  induction n with
  | zero => rfl
  | succ n ih => simp [List.replicate_succ, natLE, ih]

theorem ScalarTy.decode_zeros (T : ScalarTy) (n : Nat) :
    T.decode (List.replicate n (0 : Byte)) = 0 := by
  have hc := T.card_pos
  unfold ScalarTy.decode ScalarTy.ofRaw
  rw [natLE_replicate_zero]
  have : ¬ (T.signed = true ∧ T.card ≤ 2 * 0) := by omega
  simp only [this, if_false]
  rfl

theorem ServerConnection.read_result_elements_eq (T : ScalarTy) (buf : Buffer) (n : Nat) :
    ∀ off, ServerConnection.read_result_elements T buf n off = (read_elements T buf n off).1 := by
  induction n with
  | zero => intro off; rfl
  | succ n ih =>
    intro off
    simp only [ServerConnection.read_result_elements, read_elements]
    rw [ih]
    rfl

/-- What `send` returns for a vector `Ret` after a read that delivered bytes:
the elements decoded behind the count at the front of `recv_buf`. -/
theorem ServerConnection.receive_vector_eq (T : ScalarTy) (bytes : List Byte)
    (hpos : 0 < bytes.length) (hlen : bytes.length ≤ ServerConnection.BUFFER_SIZE) :
    ServerConnection.receive (.vector T) (some bytes)
      = (read_elements T (Buffer.zero.store bytes)
          (NetworkGlobalFunctions.read_from_buffer size_t (Buffer.zero.store bytes) 0).1.toNat
          (NetworkGlobalFunctions.read_from_buffer size_t (Buffer.zero.store bytes) 0).2).1 := by
  have htake : bytes.take ServerConnection.BUFFER_SIZE = bytes := List.take_of_length_le hlen
  have hnot : ¬ ((bytes.length : Nat) : Int) ≤ 0 := by omega
  simp only [ServerConnection.receive, transport_read, htake, hnot, if_false,
    ServerConnection.read_result_elements_eq]
  rfl

/-- What `send` returns for a scalar `Ret` after a read that delivered the
whole object representation. -/
theorem ServerConnection.receive_scalar_eq (T : ScalarTy) (bytes : List Byte)
    (hlen : bytes.length = T.size) :
    ServerConnection.receive (.scalar T) (some bytes) = T.decode bytes := by
  have htake : bytes.take T.size = bytes := List.take_of_length_le (by omega)
  simp only [ServerConnection.receive, transport_read, htake, hlen, Nat.sub_self,
    List.replicate_zero, List.append_nil]

/-- What `send` returns when the read of the reply failed or delivered nothing:
the empty vector, the zero scalar. -/
theorem ServerConnection.receive_nothing (ret : ArgTy) (pending : Pending)
    (h : pending = none ∨ pending = some []) :
    ServerConnection.receive ret pending
      = (match ret with
          | .scalar _ => (0 : Int)
          | .vector _ => ([] : List Int)) := by
  cases ret with
  | scalar T =>
    rcases h with h | h <;> subst h <;>
      simp only [ServerConnection.receive, transport_read, List.take_nil, List.nil_append,
        List.length_nil, Nat.sub_zero, ScalarTy.decode_zeros]
  | vector T =>
    rcases h with h | h <;> subst h <;>
      simp [ServerConnection.receive, transport_read]

/-- A request that fits the client's array is handed to the socket as encoded. -/
theorem send_request_of_fits (func_id : Nat) (sig : List ArgTy) (args : Args sig)
    (hfit : (request_encoding func_id sig args).length ≤ ServerConnection.BUFFER_SIZE) :
    ServerConnection.send_request func_id sig args
      = some (request_encoding func_id sig args) := by
  have h4 : (uint32_t.encode (func_id : Int)).length = 4 := uint32_t.encode_length _
  have hs4 : uint32_t.size = 4 := rfl
  have hcap : ServerConnection.BUFFER_SIZE = 2048 := rfl
  have hbig : (2048 : Nat) < SIZE_MAX_SUCC := by rw [SIZE_MAX_SUCC_eq]; norm_num
  rw [request_encoding_eq] at hfit ⊢
  rw [List.length_append, h4, hcap] at hfit
  obtain ⟨b1, hb1, hlen1, htake1⟩ := append_to_buffer_spec uint32_t
    (List.replicate ServerConnection.BUFFER_SIZE 0) 0 (func_id : Int)
    (by rw [List.length_replicate, hs4, hcap]; omega)
    (by rw [List.length_replicate, hcap]; exact hbig)
  rw [List.length_replicate, hcap] at hlen1
  rw [hs4] at hb1 htake1
  obtain ⟨b2, hb2, hlen2, htake2⟩ := append_args_spec sig b1 (0 + 4) args
    (by omega) (by omega)
  rw [htake1, List.take_zero, List.nil_append] at htake2
  unfold ServerConnection.send_request
  rw [hb1]
  simp only []
  rw [hb2]
  simp only []
  rw [htake2]

theorem send_of_request (func_id : Nat) (sig : List ArgTy) (args : Args sig) (ret : ArgTy)
    (pending : Pending) (request : List Byte)
    (hreq : ServerConnection.send_request func_id sig args = some request) :
    ServerConnection.send func_id sig args ret pending
      = some (request, ServerConnection.receive ret pending) := by
  unfold ServerConnection.send
  rw [hreq]

/-- The request of `send<Ret>(1, 3, 5)`. -/
theorem send_request_1_3_5 :
    ServerConnection.send_request 1 [.scalar int32_t, .scalar int32_t] (3, 5, ())
      = some [1, 0, 0, 0, 3, 0, 0, 0, 5, 0, 0, 0] :=
  (send_request_of_fits 1 [.scalar int32_t, .scalar int32_t] (3, 5, ()) (by decide)).trans
    (by decide)

/-- C11, as stated, fails: `send` has no way to report an error and returns a
default value. For the call `send<Ret>(1, 3, 5)`, when the read of the reply
fails, or when it delivers zero bytes, `send<int>` returns `0` and
`send<std::vector<int>>` returns the empty vector: the very values it returns
when the server really replies `0`, respectively the empty sequence. -/
theorem C11_failed_read_returns_default_value :
    ServerConnection.send 1 [.scalar int32_t, .scalar int32_t] (3, 5, ()) (.scalar int32_t) none
      = some ([1, 0, 0, 0, 3, 0, 0, 0, 5, 0, 0, 0], 0)
    ∧ ServerConnection.send 1 [.scalar int32_t, .scalar int32_t] (3, 5, ()) (.scalar int32_t)
        (some []) = some ([1, 0, 0, 0, 3, 0, 0, 0, 5, 0, 0, 0], 0)
    ∧ ServerConnection.send 1 [.scalar int32_t, .scalar int32_t] (3, 5, ()) (.vector int32_t) none
      = some ([1, 0, 0, 0, 3, 0, 0, 0, 5, 0, 0, 0], [])
    ∧ ServerConnection.send 1 [.scalar int32_t, .scalar int32_t] (3, 5, ()) (.vector int32_t)
        (some []) = some ([1, 0, 0, 0, 3, 0, 0, 0, 5, 0, 0, 0], [])
    ∧ ServerConnection.send 1 [.scalar int32_t, .scalar int32_t] (3, 5, ()) (.scalar int32_t)
        (some (serialize_result (.scalar int32_t) 0))
      = some ([1, 0, 0, 0, 3, 0, 0, 0, 5, 0, 0, 0], 0)
    ∧ ServerConnection.send 1 [.scalar int32_t, .scalar int32_t] (3, 5, ()) (.vector int32_t)
        (some (serialize_result (.vector int32_t) []))
      = some ([1, 0, 0, 0, 3, 0, 0, 0, 5, 0, 0, 0], []) := by
  refine ⟨?_, ?_, ?_, ?_, ?_, ?_⟩ <;>
    rw [send_of_request _ _ _ _ _ _ send_request_1_3_5] <;> decide

/-- C11, amended: for every call through `ServerConnection::send`, when the
single read for the reply fails or delivers zero bytes the call reports nothing
to its caller and returns a default value: the empty sequence for a sequence
return type (`if (msgLen <= 0) return {}`), the zero-initialised scalar for a
scalar return type (`Ret result{}`, the count of the read is not looked at). -/
theorem C11_send_returns_default_on_failed_read (func_id : Nat) (sig : List ArgTy)
    (args : Args sig) (T : ScalarTy) (pending : Pending)
    (h : pending = none ∨ pending = some []) :
    ServerConnection.receive (.vector T) pending = []
    ∧ ServerConnection.receive (.scalar T) pending = 0
    ∧ (∀ request, ServerConnection.send_request func_id sig args = some request →
        ServerConnection.send func_id sig args (.vector T) pending = some (request, [])
        ∧ ServerConnection.send func_id sig args (.scalar T) pending = some (request, 0)) := by
  have hv := ServerConnection.receive_nothing (.vector T) pending h
  have hs := ServerConnection.receive_nothing (.scalar T) pending h
  simp only [] at hv hs
  refine ⟨hv, hs, ?_⟩
  intro request hreq
  rw [send_of_request _ _ _ _ _ _ hreq, send_of_request _ _ _ _ _ _ hreq, hv, hs]
  exact ⟨rfl, rfl⟩

/-- C11, amended, for `send<Ret>(1, 3, 5)` and a read that fails. -/
theorem C11_send_returns_default_on_failed_read_witness :
    ((none : Pending) = none ∨ (none : Pending) = some [])
    ∧ ServerConnection.send_request 1 [.scalar int32_t, .scalar int32_t] (3, 5, ())
        = some [1, 0, 0, 0, 3, 0, 0, 0, 5, 0, 0, 0]
    ∧ (ServerConnection.send 1 [.scalar int32_t, .scalar int32_t] (3, 5, ()) (.vector int32_t)
          none = some ([1, 0, 0, 0, 3, 0, 0, 0, 5, 0, 0, 0], [])
      ∧ ServerConnection.send 1 [.scalar int32_t, .scalar int32_t] (3, 5, ()) (.scalar int32_t)
          none = some ([1, 0, 0, 0, 3, 0, 0, 0, 5, 0, 0, 0], 0)) :=
  ⟨Or.inl rfl, send_request_1_3_5,
    (C11_send_returns_default_on_failed_read 1 [.scalar int32_t, .scalar int32_t] (3, 5, ())
      int32_t none (Or.inl rfl)).2.2 _ send_request_1_3_5⟩

/-- C15: for every return value `r`, a scalar or a sequence of scalars, whose
encoding is at most 2048 bytes: when the client's single read delivers exactly
the bytes the server's `serialize_result(r)` produced, `ServerConnection::send<Ret>`
returns `r` (the same sequence, and the empty sequence for the empty
sequence), whatever request it sent. -/
theorem C15_reply_round_trip (func_id : Nat) (sig : List ArgTy) (args : Args sig)
    (ret : ArgTy) (r : ret.Val) (hr : ret.InRange r)
    (hlen : (serialize_result ret r).length ≤ ServerConnection.BUFFER_SIZE) :
    ServerConnection.receive ret (some (serialize_result ret r)) = r
    ∧ (∀ request, ServerConnection.send_request func_id sig args = some request →
        ServerConnection.send func_id sig args ret (some (serialize_result ret r))
          = some (request, r)) := by
  have hrecv : ServerConnection.receive ret (some (serialize_result ret r)) = r := by
    cases ret with
    | scalar T =>
      simp only [serialize_result, write_to_buffer, List.nil_append]
      rw [ServerConnection.receive_scalar_eq T _ (T.encode_length r)]
      exact T.decode_encode r hr
    | vector T =>
      have h8 : (size_t.encode ((List.length (α := Int) r : Nat) : Int)).length = 8 :=
        size_t.encode_length _
      have hcap : ServerConnection.BUFFER_SIZE = 2048 := rfl
      have hbig : (2048 : Nat) < SIZE_MAX_SUCC := by rw [SIZE_MAX_SUCC_eq]; norm_num
      simp only [serialize_result] at hlen ⊢
      rw [write_vector_to_buffer_eq, List.nil_append] at hlen ⊢
      have hlen2 := hlen
      rw [List.length_append, h8, flatMap_encode_length, hcap] at hlen2
      have hle : List.length (α := Int) r ≤ List.length (α := Int) r * T.size :=
        Nat.le_mul_of_pos_right _ T.size_pos
      rw [ServerConnection.receive_vector_eq T _
        (by rw [List.length_append, h8]; omega) hlen]
      have hb := Buffer.bytesAt_store_prefix Buffer.zero
        (size_t.encode ((List.length (α := Int) r : Nat) : Int) ++ List.flatMap r T.encode)
      rw [List.length_append, h8, flatMap_encode_length] at hb
      rw [Buffer.bytesAt_add] at hb
      have hsplit := List.append_inj hb
        (by rw [Buffer.bytesAt_length, size_t.encode_length]; rfl)
      rw [read_count_of_bytes _ (List.length (α := Int) r) 0 (by omega) (by omega) hsplit.1]
      simp only [Int.toNat_ofNat]
      rw [read_elements_of_bytes T _ r (0 + 8) hr (by omega) hsplit.2]
  refine ⟨hrecv, ?_⟩
  intro request hreq
  rw [send_of_request _ _ _ _ _ _ hreq, hrecv]

/-- C15 for the replies `-7`, `[1, -2, 3]` and the empty sequence. -/
theorem C15_reply_round_trip_witness :
    (serialize_result (.vector int32_t) [1, -2, 3]).length ≤ ServerConnection.BUFFER_SIZE
    ∧ ServerConnection.send_request 1 [.scalar int32_t, .scalar int32_t] (3, 5, ())
        = some [1, 0, 0, 0, 3, 0, 0, 0, 5, 0, 0, 0]
    ∧ ServerConnection.send 1 [.scalar int32_t, .scalar int32_t] (3, 5, ()) (.vector int32_t)
        (some (serialize_result (.vector int32_t) [1, -2, 3]))
      = some ([1, 0, 0, 0, 3, 0, 0, 0, 5, 0, 0, 0], [1, -2, 3])
    ∧ ServerConnection.send 1 [.scalar int32_t, .scalar int32_t] (3, 5, ()) (.vector int32_t)
        (some (serialize_result (.vector int32_t) []))
      = some ([1, 0, 0, 0, 3, 0, 0, 0, 5, 0, 0, 0], [])
    ∧ ServerConnection.send 1 [.scalar int32_t, .scalar int32_t] (3, 5, ()) (.scalar int32_t)
        (some (serialize_result (.scalar int32_t) (-7)))
      = some ([1, 0, 0, 0, 3, 0, 0, 0, 5, 0, 0, 0], -7) :=
  ⟨by decide, send_request_1_3_5,
    (C15_reply_round_trip 1 [.scalar int32_t, .scalar int32_t] (3, 5, ()) (.vector int32_t)
      [1, -2, 3] (show ∀ v ∈ [1, -2, 3], int32_t.InRange v by decide) (by decide)).2 _
      send_request_1_3_5,
    (C15_reply_round_trip 1 [.scalar int32_t, .scalar int32_t] (3, 5, ()) (.vector int32_t)
      [] (show ∀ v ∈ ([] : List Int), int32_t.InRange v by decide) (by decide)).2 _
      send_request_1_3_5,
    (C15_reply_round_trip 1 [.scalar int32_t, .scalar int32_t] (3, 5, ()) (.scalar int32_t)
      (-7) (show int32_t.InRange (-7) by decide) (by decide)).2 _ send_request_1_3_5⟩

/-! ## C13, C14: the connection loop -/

theorem transport_read_delivers (data : List Byte) (h : data ≠ []) :
    ¬ (transport_read (some data) Server.RECEIVE_SIZE).1 ≤ 0 := by
  have hpos : 0 < data.length := List.length_pos.mpr h
  have hcap : Server.RECEIVE_SIZE = 1024 := rfl
  simp only [transport_read, List.length_take, hcap]
  omega

theorem handle_client_cons (s : Server) (buffer : Buffer) (pending : Pending)
    (rest : List Pending) (h : delivers_bytes pending) :
    s.handle_client buffer (pending :: rest)
      = s.handle_request (buffer.store (transport_read pending Server.RECEIVE_SIZE).2)
        :: s.handle_client (buffer.store (transport_read pending Server.RECEIVE_SIZE).2) rest := by
  have hnot : ¬ (transport_read pending Server.RECEIVE_SIZE).1 ≤ 0 := by
    unfold delivers_bytes at h; omega
  simp only [Server.handle_client, hnot, if_false]

/-- Requests processed earlier on a connection change nothing for a later one
but the content of the receive array. -/
theorem handle_client_append (s : Server) (history : List Pending) :
    ∀ (buffer : Buffer), (∀ p ∈ history, delivers_bytes p) → ∀ (later : List Pending),
      s.handle_client buffer (history ++ later)
        = s.handle_client buffer history
          ++ s.handle_client (Server.receive_array_after buffer history) later := by
  induction history with
  | nil => intro buffer _ later; simp [Server.handle_client, Server.receive_array_after]
  | cons p ps ih =>
    intro buffer hall later
    have hp : delivers_bytes p := hall p (List.mem_cons_self _ _)
    rw [List.cons_append, handle_client_cons s buffer p _ hp,
      handle_client_cons s buffer p _ hp, ih _ (fun q hq => hall q (List.mem_cons_of_mem _ hq))]
    simp only [Server.receive_array_after, List.cons_append]

theorem delivers_bytes_some (data : List Byte) (h : data ≠ []) : delivers_bytes (some data) := by
  have := transport_read_delivers data h
  unfold delivers_bytes; omega

/-- A request that starts with the id of no handler gets no reply, whatever the
receive array held. -/
theorem handle_request_unknown (s : Server) (mem : Buffer) (func_id : Nat)
    (payload : List Byte) (hid : func_id < 2 ^ 32)
    (hun : s.dispatcher.handlers func_id = none) :
    s.handle_request
      (mem.store (transport_read
        (some (uint32_t.encode (func_id : Int) ++ payload)) Server.RECEIVE_SIZE).2) = none := by
  have h4 : (uint32_t.encode (func_id : Int)).length = 4 := uint32_t.encode_length _
  have hs4 : uint32_t.size = 4 := rfl
  have htake : (uint32_t.encode (func_id : Int) ++ payload).take Server.RECEIVE_SIZE
      = uint32_t.encode (func_id : Int) ++ payload.take 1020 := by
    have := @List.take_append Byte (uint32_t.encode (func_id : Int)) payload 1020
    rw [h4] at this
    exact this
  have hb := Buffer.bytesAt_store mem [] (uint32_t.encode (func_id : Int)) (payload.take 1020)
  rw [List.nil_append, h4] at hb
  have hread := read_from_buffer_of_bytes uint32_t _ 0 (func_id : Int)
    (uint32_t_inRange func_id hid) (by rw [hs4]; exact hb)
  simp only [Server.handle_request, transport_read, htake, hread, Int.toNat_ofNat,
    Dispatcher.dispatch, hun]

/-- A complete request for a typed handler that reads its parameters in
declared order is handed to that handler with the cursor behind the id, on a
receive array that holds the encoded arguments there, whatever it held
before. -/
theorem handle_request_typed_handler (alloc : Allocator) (s : Server) (mem : Buffer)
    (func_id : Nat) (sig : List ArgTy) (ret : ArgTy) (func : Args sig → ret.Val)
    (args : Args sig) (hid : func_id < 2 ^ 32)
    (hreg : s.dispatcher.handlers func_id
      = some (typed_handler alloc .leftToRight sig ret func))
    (hfit : (request_encoding func_id sig args).length ≤ Server.RECEIVE_SIZE) :
    s.handle_request
        (mem.store (transport_read
          (some (request_encoding func_id sig args)) Server.RECEIVE_SIZE).2)
      = sent_reply (typed_handler alloc .leftToRight sig ret func
          (mem.store (uint32_t.encode (func_id : Int) ++ encode_args sig [] args)) 4)
    ∧ 4 + (encode_args sig [] args).length < SIZE_MAX_SUCC
    ∧ (mem.store (uint32_t.encode (func_id : Int) ++ encode_args sig [] args)).bytesAt 4
        (encode_args sig [] args).length = encode_args sig [] args := by
  have h4 : (uint32_t.encode (func_id : Int)).length = 4 := uint32_t.encode_length _
  have hs4 : uint32_t.size = 4 := rfl
  have hcap : Server.RECEIVE_SIZE = 1024 := rfl
  have hbig : (1024 : Nat) < SIZE_MAX_SUCC := by rw [SIZE_MAX_SUCC_eq]; norm_num
  have htake : (request_encoding func_id sig args).take Server.RECEIVE_SIZE
      = request_encoding func_id sig args := List.take_of_length_le hfit
  rw [request_encoding_eq] at hfit htake
  rw [List.length_append, h4, hcap] at hfit
  have hb0 := Buffer.bytesAt_store mem [] (uint32_t.encode (func_id : Int))
    (encode_args sig [] args)
  rw [List.nil_append, h4] at hb0
  have hread := read_from_buffer_of_bytes uint32_t _ 0 (func_id : Int)
    (uint32_t_inRange func_id hid) (by rw [hs4]; exact hb0)
  have hb := Buffer.bytesAt_store mem (uint32_t.encode (func_id : Int))
    (encode_args sig [] args) []
  rw [List.append_nil, h4] at hb
  refine ⟨?_, by omega, hb⟩
  rw [request_encoding_eq]
  simp only [Server.handle_request, transport_read, htake, hread, Int.toNat_ofNat,
    Dispatcher.dispatch, hreg, hs4, Nat.zero_add, Nat.mod_eq_of_lt (show 4 < SIZE_MAX_SUCC
      by omega)]
  rfl

/-- A complete request for a typed handler that reads its parameters in
declared order gets the reply of its function, whatever the receive array
held, when the server can construct the vectors of the request. -/
theorem handle_request_typed (alloc : Allocator) (s : Server) (mem : Buffer) (func_id : Nat)
    (sig : List ArgTy) (ret : ArgTy) (func : Args sig → ret.Val) (args : Args sig)
    (hid : func_id < 2 ^ 32)
    (hreg : s.dispatcher.handlers func_id
      = some (typed_handler alloc .leftToRight sig ret func))
    (hv : Args.InRange sig args)
    (hfit : (request_encoding func_id sig args).length ≤ Server.RECEIVE_SIZE)
    (halloc : Args.Constructible alloc sig args) :
    s.handle_request
      (mem.store (transport_read
        (some (request_encoding func_id sig args)) Server.RECEIVE_SIZE).2)
      = some (serialize_result ret (func args)) := by
  obtain ⟨hreq, hlt, hb⟩ := handle_request_typed_handler alloc s mem func_id sig ret func args
    hid hreg hfit
  rw [hreq, typed_handler_leftToRight alloc sig ret func _ 4 args hv hlt hb halloc]
  rfl

/-- A complete request with a vector the server cannot construct gets no reply:
the exception of the constructor leaves the handler and is caught in the
loop. -/
theorem handle_request_typed_throw (alloc : Allocator) (s : Server) (mem : Buffer)
    (func_id : Nat) (sig : List ArgTy) (ret : ArgTy) (func : Args sig → ret.Val)
    (args : Args sig) (hid : func_id < 2 ^ 32)
    (hreg : s.dispatcher.handlers func_id
      = some (typed_handler alloc .leftToRight sig ret func))
    (hv : Args.InRange sig args)
    (hfit : (request_encoding func_id sig args).length ≤ Server.RECEIVE_SIZE)
    (halloc : ¬ Args.Constructible alloc sig args) :
    s.handle_request
      (mem.store (transport_read
        (some (request_encoding func_id sig args)) Server.RECEIVE_SIZE).2)
      = none := by
  obtain ⟨hreq, hlt, hb⟩ := handle_request_typed_handler alloc s mem func_id sig ret func args
    hid hreg hfit
  obtain ⟨e, o, he⟩ := typed_handler_leftToRight_throw alloc sig ret func _ 4 args hv hlt hb
    halloc
  rw [hreq, he]
  rfl

theorem receive_array_after_snoc (history : List Pending) :
    ∀ (buffer : Buffer) (p : Pending),
      Server.receive_array_after buffer (history ++ [p])
        = (Server.receive_array_after buffer history).store
            (transport_read p Server.RECEIVE_SIZE).2 := by
  induction history with
  | nil => intro buffer p; rfl
  | cons q qs ih =>
    intro buffer p
    simp only [List.cons_append, Server.receive_array_after]
    exact ih _ p

/-- The pass of the loop for one read that follows a history of reads. -/
theorem handle_client_after_history (s : Server) (buffer : Buffer) (history : List Pending)
    (p : Pending) (later : List Pending) (hall : ∀ q ∈ history, delivers_bytes q)
    (hp : delivers_bytes p) :
    s.handle_client buffer (history ++ p :: later)
      = s.handle_client buffer history
        ++ s.handle_request ((Server.receive_array_after buffer history).store
            (transport_read p Server.RECEIVE_SIZE).2)
          :: s.handle_client (Server.receive_array_after buffer (history ++ [p])) later := by
  rw [handle_client_append s history buffer hall, handle_client_cons s _ p later hp,
    receive_array_after_snoc]

theorem request_encoding_ne_nil (func_id : Nat) (sig : List ArgTy) (args : Args sig) :
    request_encoding func_id sig args ≠ [] := by
  have h4 : (uint32_t.encode (func_id : Int)).length = 4 := uint32_t.encode_length _
  intro h
  have := congrArg List.length h
  rw [request_encoding_eq, List.length_append, h4] at this
  simp at this

theorem id_bytes_ne_nil (func_id : Nat) (payload : List Byte) :
    uint32_t.encode (func_id : Int) ++ payload ≠ [] := by
  have h4 : (uint32_t.encode (func_id : Int)).length = 4 := uint32_t.encode_length _
  intro h
  have := congrArg List.length h
  rw [List.length_append, h4] at this
  simp at this

/-- C13, as stated, fails: the receive array of `handle_client` is declared
before the loop and the decoders read past the bytes a read delivered. On a
server with `add` under id 1, two connections whose current read delivers the
same four bytes (the id `1` and nothing else) send different replies: the one
that earlier received `add(3, 5)` replies `8`, the one that earlier received
`add(10, 20)` replies `30`. -/
theorem C13_reply_depends_on_earlier_request :
    (Server.empty.register_typed_handler (libstdcxx_vector (2 ^ 20)) .leftToRight 1
        [.scalar int32_t, .scalar int32_t]
        (.scalar int32_t) add).handle_client Buffer.zero
      [some (request_encoding 1 [.scalar int32_t, .scalar int32_t] (3, 5, ())),
        some (uint32_t.encode 1)]
      = [some (int32_t.encode 8), some (int32_t.encode 8)]
    ∧ (Server.empty.register_typed_handler (libstdcxx_vector (2 ^ 20)) .leftToRight 1
        [.scalar int32_t, .scalar int32_t]
        (.scalar int32_t) add).handle_client Buffer.zero
      [some (request_encoding 1 [.scalar int32_t, .scalar int32_t] (10, 20, ())),
        some (uint32_t.encode 1)]
      = [some (int32_t.encode 30), some (int32_t.encode 30)]
    ∧ int32_t.encode 8 ≠ int32_t.encode 30 := by
  refine ⟨by decide, by decide, by decide⟩

/-- C13, amended: the reply `handle_client` sends for a request is a function
of the registry and of the receive array as that request's read left it: the
bytes the read delivered in front, behind them what earlier reads on the
connection left there. For a complete request (the id and the whole encoding of
the arguments, for a typed handler that reads them in declared order) and for a
request that starts with the id of no handler, the reply is a function of the
registry and of the delivered bytes only: two connections send the same reply,
respectively both send none, whatever the arrays held and whatever requests
were processed earlier on either. The reply to the complete request is the
encoded result of the function when the server can construct the vectors of
the request, and none when it cannot. -/
theorem C13_reply_of_complete_request (alloc : Allocator) (s : Server)
    (buffer1 buffer2 : Buffer)
    (history1 history2 : List Pending) (func_id : Nat) (hid : func_id < 2 ^ 32)
    (h1 : ∀ p ∈ history1, delivers_bytes p) (h2 : ∀ p ∈ history2, delivers_bytes p) :
    (∀ (data : List Byte), data ≠ [] →
      s.handle_client buffer1 (history1 ++ [some data])
        = s.handle_client buffer1 history1
          ++ [s.handle_request ((Server.receive_array_after buffer1 history1).store
                (data.take Server.RECEIVE_SIZE))])
    ∧ (∀ (sig : List ArgTy) (ret : ArgTy) (func : Args sig → ret.Val) (args : Args sig),
      s.dispatcher.handlers func_id = some (typed_handler alloc .leftToRight sig ret func) →
      Args.InRange sig args →
      (request_encoding func_id sig args).length ≤ Server.RECEIVE_SIZE →
      (∃ reply,
        s.handle_client buffer1 (history1 ++ [some (request_encoding func_id sig args)])
          = s.handle_client buffer1 history1 ++ [reply]
        ∧ s.handle_client buffer2 (history2 ++ [some (request_encoding func_id sig args)])
          = s.handle_client buffer2 history2 ++ [reply])
      ∧ (Args.Constructible alloc sig args →
        s.handle_client buffer1 (history1 ++ [some (request_encoding func_id sig args)])
          = s.handle_client buffer1 history1 ++ [some (serialize_result ret (func args))]
        ∧ s.handle_client buffer2 (history2 ++ [some (request_encoding func_id sig args)])
          = s.handle_client buffer2 history2 ++ [some (serialize_result ret (func args))])
      ∧ (¬ Args.Constructible alloc sig args →
        s.handle_client buffer1 (history1 ++ [some (request_encoding func_id sig args)])
          = s.handle_client buffer1 history1 ++ [none]
        ∧ s.handle_client buffer2 (history2 ++ [some (request_encoding func_id sig args)])
          = s.handle_client buffer2 history2 ++ [none]))
    ∧ (∀ (payload : List Byte), s.dispatcher.handlers func_id = none →
      s.handle_client buffer1 (history1 ++ [some (uint32_t.encode (func_id : Int) ++ payload)])
          = s.handle_client buffer1 history1 ++ [none]
        ∧ s.handle_client buffer2
            (history2 ++ [some (uint32_t.encode (func_id : Int) ++ payload)])
          = s.handle_client buffer2 history2 ++ [none]) := by
  refine ⟨?_, ?_, ?_⟩
  · intro data hdata
    rw [handle_client_after_history s buffer1 history1 (some data) [] h1
      (delivers_bytes_some data hdata)]
    simp only [Server.handle_client, transport_read]
  · intro sig ret func args hreg hv hfit
    have hne := request_encoding_ne_nil func_id sig args
    have hok : Args.Constructible alloc sig args →
        s.handle_client buffer1 (history1 ++ [some (request_encoding func_id sig args)])
          = s.handle_client buffer1 history1 ++ [some (serialize_result ret (func args))]
        ∧ s.handle_client buffer2 (history2 ++ [some (request_encoding func_id sig args)])
          = s.handle_client buffer2 history2
            ++ [some (serialize_result ret (func args))] := by
      intro halloc
      rw [handle_client_after_history s buffer1 history1 _ [] h1 (delivers_bytes_some _ hne),
        handle_client_after_history s buffer2 history2 _ [] h2 (delivers_bytes_some _ hne),
        handle_request_typed alloc s _ func_id sig ret func args hid hreg hv hfit halloc,
        handle_request_typed alloc s _ func_id sig ret func args hid hreg hv hfit halloc]
      simp only [Server.handle_client, and_self]
    have hthrow : ¬ Args.Constructible alloc sig args →
        s.handle_client buffer1 (history1 ++ [some (request_encoding func_id sig args)])
          = s.handle_client buffer1 history1 ++ [none]
        ∧ s.handle_client buffer2 (history2 ++ [some (request_encoding func_id sig args)])
          = s.handle_client buffer2 history2 ++ [none] := by
      intro halloc
      rw [handle_client_after_history s buffer1 history1 _ [] h1 (delivers_bytes_some _ hne),
        handle_client_after_history s buffer2 history2 _ [] h2 (delivers_bytes_some _ hne),
        handle_request_typed_throw alloc s _ func_id sig ret func args hid hreg hv hfit halloc,
        handle_request_typed_throw alloc s _ func_id sig ret func args hid hreg hv hfit halloc]
      simp only [Server.handle_client, and_self]
    refine ⟨?_, hok, hthrow⟩
    by_cases halloc : Args.Constructible alloc sig args
    · exact ⟨_, hok halloc⟩
    · exact ⟨_, hthrow halloc⟩
  · intro payload hun
    have hne := id_bytes_ne_nil func_id payload
    rw [handle_client_after_history s buffer1 history1 _ [] h1 (delivers_bytes_some _ hne),
      handle_client_after_history s buffer2 history2 _ [] h2 (delivers_bytes_some _ hne),
      handle_request_unknown s _ func_id payload hid hun,
      handle_request_unknown s _ func_id payload hid hun]
    simp only [Server.handle_client, and_self]

/-- C13, amended, on the server with `add` under id 1: after `add(3, 5)` on one
connection and `add(10, 20)` on the other, the complete request `add(7, 8)`
gets the reply `15` on both, and a request for id 99 gets none on both. -/
theorem C13_reply_of_complete_request_witness :
    (1 : Nat) < 2 ^ 32
    ∧ (∀ p ∈ [some (request_encoding 1 [.scalar int32_t, .scalar int32_t] (3, 5, ()))],
        delivers_bytes p)
    ∧ (∀ p ∈ [some (request_encoding 1 [.scalar int32_t, .scalar int32_t] (10, 20, ()))],
        delivers_bytes p)
    ∧ ((Server.empty.register_typed_handler (libstdcxx_vector (2 ^ 20)) .leftToRight 1
        [.scalar int32_t, .scalar int32_t]
          (.scalar int32_t) add).handle_client Buffer.zero
        ([some (request_encoding 1 [.scalar int32_t, .scalar int32_t] (3, 5, ()))]
          ++ [some (request_encoding 1 [.scalar int32_t, .scalar int32_t] (7, 8, ()))])
        = (Server.empty.register_typed_handler (libstdcxx_vector (2 ^ 20)) .leftToRight 1
            [.scalar int32_t, .scalar int32_t] (.scalar int32_t) add).handle_client Buffer.zero
            [some (request_encoding 1 [.scalar int32_t, .scalar int32_t] (3, 5, ()))]
          ++ [some (serialize_result (.scalar int32_t) (add (7, 8, ())))]
      ∧ (Server.empty.register_typed_handler (libstdcxx_vector (2 ^ 20)) .leftToRight 1
        [.scalar int32_t, .scalar int32_t]
          (.scalar int32_t) add).handle_client Buffer.ones
        ([some (request_encoding 1 [.scalar int32_t, .scalar int32_t] (10, 20, ()))]
          ++ [some (request_encoding 1 [.scalar int32_t, .scalar int32_t] (7, 8, ()))])
        = (Server.empty.register_typed_handler (libstdcxx_vector (2 ^ 20)) .leftToRight 1
            [.scalar int32_t, .scalar int32_t] (.scalar int32_t) add).handle_client Buffer.ones
            [some (request_encoding 1 [.scalar int32_t, .scalar int32_t] (10, 20, ()))]
          ++ [some (serialize_result (.scalar int32_t) (add (7, 8, ())))])
    ∧ ((Server.empty.register_typed_handler (libstdcxx_vector (2 ^ 20)) .leftToRight 1
        [.scalar int32_t, .scalar int32_t]
          (.scalar int32_t) add).handle_client Buffer.zero
        ([some (request_encoding 1 [.scalar int32_t, .scalar int32_t] (3, 5, ()))]
          ++ [some (uint32_t.encode ((99 : Nat) : Int) ++ [])])
        = (Server.empty.register_typed_handler (libstdcxx_vector (2 ^ 20)) .leftToRight 1
            [.scalar int32_t, .scalar int32_t] (.scalar int32_t) add).handle_client Buffer.zero
            [some (request_encoding 1 [.scalar int32_t, .scalar int32_t] (3, 5, ()))]
          ++ [none]
      ∧ (Server.empty.register_typed_handler (libstdcxx_vector (2 ^ 20)) .leftToRight 1
        [.scalar int32_t, .scalar int32_t]
          (.scalar int32_t) add).handle_client Buffer.ones
        ([some (request_encoding 1 [.scalar int32_t, .scalar int32_t] (10, 20, ()))]
          ++ [some (uint32_t.encode ((99 : Nat) : Int) ++ [])])
        = (Server.empty.register_typed_handler (libstdcxx_vector (2 ^ 20)) .leftToRight 1
            [.scalar int32_t, .scalar int32_t] (.scalar int32_t) add).handle_client Buffer.ones
            [some (request_encoding 1 [.scalar int32_t, .scalar int32_t] (10, 20, ()))]
          ++ [none])
    ∧ serialize_result (.scalar int32_t) (add (7, 8, ())) = int32_t.encode 15 :=
  ⟨by decide, by decide, by decide,
    (((C13_reply_of_complete_request (libstdcxx_vector (2 ^ 20))
      (Server.empty.register_typed_handler (libstdcxx_vector (2 ^ 20)) .leftToRight 1
        [.scalar int32_t, .scalar int32_t]
        (.scalar int32_t) add) Buffer.zero Buffer.ones
      [some (request_encoding 1 [.scalar int32_t, .scalar int32_t] (3, 5, ()))]
      [some (request_encoding 1 [.scalar int32_t, .scalar int32_t] (10, 20, ()))]
      1 (by decide) (by decide) (by decide)).2.1
      [.scalar int32_t, .scalar int32_t] (.scalar int32_t) add (7, 8, ()) rfl
      ⟨show int32_t.InRange 7 by decide, show int32_t.InRange 8 by decide, trivial⟩
      (by decide)).2.1 ⟨trivial, trivial, trivial⟩),
    (C13_reply_of_complete_request (libstdcxx_vector (2 ^ 20))
      (Server.empty.register_typed_handler (libstdcxx_vector (2 ^ 20)) .leftToRight 1
        [.scalar int32_t, .scalar int32_t]
        (.scalar int32_t) add) Buffer.zero Buffer.ones
      [some (request_encoding 1 [.scalar int32_t, .scalar int32_t] (3, 5, ()))]
      [some (request_encoding 1 [.scalar int32_t, .scalar int32_t] (10, 20, ()))]
      99 (by decide) (by decide) (by decide)).2.2 [] rfl,
    by decide⟩

end NetworkGlobalFunctions
